import Mathlib

/-!
Verification development for the lang-learner data validation pipeline.

The definitions below are a shallow embedding of the pipeline sources:

* `data_tools/scripts/convert_lang_csv_to_df.py` — corpus parser, per-entry
  derivation helpers and the duplicate/sort reconciler;
* `data_tools/data_utils/translation.py` — the translation/gender checkers
  and their factory;
* `data_tools/scripts/check_df_translation.py` — the per-record review
  classification (`analyse_errors`) and the report synthesis loop;
* `data_tools/data_utils/data_schema.py` — the dataframe schema validator.

Text is processed over `List Char` (mirroring Python's per-character string
semantics); `String` wrappers are used for record fields.  External
collaborators (the translation API, the fuzzy matcher and the pylexique
lexicon) are modelled as oracle functions supplied in an
`ExternalServices` record, exactly as the pipeline treats them (black
boxes whose failures are caught and folded into per-record data).
-/

namespace LangLearner

/-! ### Character/string helpers mirroring Python `str` methods -/

/-- Python-style whitespace test (`str.strip` family).  The corpus is
ASCII/Latin text; ASCII whitespace suffices. -/
def isWs (c : Char) : Bool := c.isWhitespace

/-- `str.strip()` on a character list. -/
def stripL (cs : List Char) : List Char :=
  ((cs.dropWhile isWs).reverse.dropWhile isWs).reverse

/-- `str.rstrip()` on a character list. -/
def rstripL (cs : List Char) : List Char :=
  (cs.reverse.dropWhile isWs).reverse

/-- `str.rstrip('\n')` on a character list. -/
def rstripNlL (cs : List Char) : List Char :=
  (cs.reverse.dropWhile (· == '\n')).reverse

/-- `str.strip()` for `String`. -/
def pyStrip (s : String) : String := String.mk (stripL s.data)

/-- `str.rstrip()` for `String`. -/
def pyRstrip (s : String) : String := String.mk (rstripL s.data)

/-- `str.rstrip('\n')` for `String`. -/
def pyRstripNl (s : String) : String := String.mk (rstripNlL s.data)

/-- True iff the line is blank, i.e. Python's `not line.strip()`. -/
def isBlankStr (s : String) : Bool := s.data.all isWs

/-- `str.startswith` for `String`. -/
def pyStartsWith (s p : String) : Bool := p.data.isPrefixOf s.data

/-- Split a character list at the first occurrence of substring `sep`:
`some (before, after)` or `none` when `sep` does not occur. -/
def breakAtSub (sep : List Char) : List Char → Option (List Char × List Char)
  | [] => none
  | c :: rest =>
    if sep.isPrefixOf (c :: rest) then some ([], (c :: rest).drop sep.length)
    else
      match breakAtSub sep rest with
      | some (pre, post) => some (c :: pre, post)
      | none => none

/-- Python `str.partition(sep)`: `(before, sep, after)`, or `(s, '', '')`
when `sep` does not occur. -/
def pyPartition (s sep : String) : String × String × String :=
  match breakAtSub sep.data s.data with
  | some (pre, post) => (String.mk pre, sep, String.mk post)
  | none => (s, "", "")

/-- Python `s[-len(suffix):] == suffix` (character-based slicing). -/
def endsWithL (cs suffix : List Char) : Bool :=
  cs.drop (cs.length - suffix.length) == suffix

/-- Lowercase the first character, `s[0].lower() + s[1:]` (ASCII case
mapping; the corpus headers and phrases this is applied to start with
ASCII letters). -/
def lowerFirst (s : String) : String :=
  match s.data with
  | [] => s
  | c :: rest => String.mk (c.toLower :: rest)

/-- Decidable equality for `Except` results, used to evaluate the
embedding on concrete inputs. -/
instance {e a : Type} [DecidableEq e] [DecidableEq a] : DecidableEq (Except e a) := fun x y =>
  match x, y with
  | .error u, .error v =>
    if h : u = v then isTrue (by rw [h]) else isFalse (by intro hc; cases hc; exact h rfl)
  | .error _, .ok _ => isFalse (fun hc => Except.noConfusion hc)
  | .ok _, .error _ => isFalse (fun hc => Except.noConfusion hc)
  | .ok u, .ok v =>
    if h : u = v then isTrue (by rw [h]) else isFalse (by intro hc; cases hc; exact h rfl)

/-- Truthiness of an optional string, as Python evaluates `if x:` for a
variable that is `None` or a `str`. -/
def truthyStr : Option String → Bool
  | none => false
  | some s => s != ""

/-! ### Lexicographic code-point order (Python string comparison) -/

/-- Python compares strings lexicographically by code point; this is the
executable order used for sorting (`DataFrame.sort_values` and `sorted`). -/
def leChars : List Char → List Char → Bool
  | [], _ => true
  | _ :: _, [] => false
  | a :: as, b :: bs => if a < b then true else if b < a then false else leChars as bs

/-- Code-point order on `String`. -/
def leStr (a b : String) : Bool := leChars a.data b.data

theorem leChars_total (a b : List Char) : leChars a b = true ∨ leChars b a = true := by
  induction a generalizing b with
  | nil => left; rfl
  | cons x xs ih =>
    cases b with
    | nil => right; rfl
    | cons y ys =>
      by_cases hxy : x < y
      · left; simp [leChars, hxy]
      · by_cases hyx : y < x
        · right; simp [leChars, hyx]
        · have := ih ys
          rcases this with h | h
          · left; simp [leChars, hxy, hyx, h]
          · right; simp [leChars, hyx, hxy, h]

theorem leChars_trans {a b c : List Char} (hab : leChars a b = true)
    (hbc : leChars b c = true) : leChars a c = true := by
  induction a generalizing b c with
  | nil => rfl
  | cons x xs ih =>
    cases b with
    | nil => simp [leChars] at hab
    | cons y ys =>
      cases c with
      | nil => simp [leChars] at hbc
      | cons z zs =>
        by_cases hxy : x < y
        · by_cases hyz : y < z
          · simp [leChars, lt_trans hxy hyz]
          · by_cases hzy : z < y
            · simp [leChars, hyz, hzy] at hbc
            · have hyz' : y = z := le_antisymm (not_lt.mp hzy) (not_lt.mp hyz)
              subst hyz'
              simp [leChars, hxy]
        · by_cases hyx : y < x
          · simp [leChars, hxy, hyx] at hab
          · have hxy' : x = y := le_antisymm (not_lt.mp hyx) (not_lt.mp hxy)
            subst hxy'
            simp only [leChars, if_neg hxy, if_neg hyx] at hab
            by_cases hyz : x < z
            · simp [leChars, hyz]
            · by_cases hzy : z < x
              · simp [leChars, hyz, hzy] at hbc
              · have : x = z := le_antisymm (not_lt.mp hzy) (not_lt.mp hyz)
                subst this
                simp only [leChars, if_neg hyz, if_neg hzy] at hbc ⊢
                exact ih hab hbc

theorem leChars_antisymm {a b : List Char} (hab : leChars a b = true)
    (hba : leChars b a = true) : a = b := by
  induction a generalizing b with
  | nil =>
    cases b with
    | nil => rfl
    | cons y ys => simp [leChars] at hba
  | cons x xs ih =>
    cases b with
    | nil => simp [leChars] at hab
    | cons y ys =>
      by_cases hxy : x < y
      · simp [leChars, hxy, asymm hxy] at hba
      · by_cases hyx : y < x
        · simp [leChars, hxy, hyx] at hab
        · have hxy' : x = y := le_antisymm (not_lt.mp hyx) (not_lt.mp hxy)
          subst hxy'
          simp only [leChars, if_neg hxy, if_neg hyx] at hab hba
          exact congrArg (x :: ·) (ih hab hba)

theorem leStr_total (a b : String) : leStr a b = true ∨ leStr b a = true :=
  leChars_total a.data b.data

theorem leStr_trans {a b c : String} (hab : leStr a b = true)
    (hbc : leStr b c = true) : leStr a c = true :=
  leChars_trans hab hbc

theorem leStr_antisymm {a b : String} (hab : leStr a b = true)
    (hba : leStr b a = true) : a = b := by
  cases a; cases b
  exact congrArg String.mk (leChars_antisymm hab hba)

/-! ### Per-entry derivation helpers (`convert_lang_csv_to_df.py`) -/

/-- Embeds `get_phrase_short(s, comment_marker, special_comment)`: the raw
short form is the portion before the first `comment_marker`, stripped, when
the marker occurs, and `s` unchanged otherwise; the flag is set iff `s`
ends exactly with `special_comment`.  The function's leading `assert`
(that `special_comment` starts with `comment_marker`) holds statically at
the pipeline's only call site and is not modelled. -/
def get_phrase_short (s comment_marker special_comment : String) : String × Bool :=
  let s_short : String :=
    match breakAtSub comment_marker.data s.data with
    | some (pre, _) => String.mk (stripL pre)
    | none => s
  let is_special_comment : Bool := endsWithL s.data special_comment.data
  (s_short, is_special_comment)

/-- The suppression-comment literal used by `convert_csv_to_dataframe`. -/
def ignoreLit : String := "# ignore translation error"

/-- One pass of `re.sub(r'\([^()]*\)', '', s)`: delete every non-overlapping
leftmost occurrence of a `(`, a run of non-parenthesis characters, and `)`.
`buf = some b` means the scan is inside a candidate group opened by `(`,
with `b` holding the (reversed) characters seen since; `acc` is the
(reversed) output. -/
def subBrOnceGo (acc : List Char) (buf : Option (List Char)) : List Char → List Char
  | [] =>
    match buf with
    | none => acc
    | some b => b ++ ('(' :: acc)
  | c :: rest =>
    match buf with
    | none =>
      if c = '(' then subBrOnceGo acc (some []) rest
      else subBrOnceGo (c :: acc) none rest
    | some b =>
      if c = ')' then subBrOnceGo acc none rest
      else if c = '(' then subBrOnceGo (b ++ ('(' :: acc)) (some []) rest
      else subBrOnceGo acc (some (c :: b)) rest

/-- One `re.sub(r'\([^()]*\)', '', s)` pass over a character list. -/
def subBrOnce (cs : List Char) : List Char := (subBrOnceGo [] none cs).reverse

/-- Embeds `remove_str_in_brackets`: count the `(` characters, then that
many times substitute-and-strip. -/
def removeBracketsIter : Nat → List Char → List Char
  | 0, cs => cs
  | n + 1, cs => removeBracketsIter n (stripL (subBrOnce cs))

/-- Embeds `remove_str_in_brackets(s)`. -/
def remove_str_in_brackets (s : String) : String :=
  String.mk (removeBracketsIter (s.data.count '(') s.data)

/-- Embeds `clean(s)`: remove bracketed substrings, then truncate at the
first occurrence of the literal `e.g`, then strip (`split('e.g')[0].strip()`). -/
def clean (s : String) : String :=
  let s1 := (remove_str_in_brackets s).data
  let s2 :=
    match breakAtSub ['e', '.', 'g'] s1 with
    | some (pre, _) => pre
    | none => s1
  String.mk (stripL s2)

/-- `\s*\(` followed by `m` or `f` and `)`: test whether the remainder of
the phrase (after a candidate noun prefix) carries a gender marker, as the
regex `\s*\((?P<source_noun_gender>[mf])\)` would match at this point. -/
def matchGenderAt (cs : List Char) : Option Char :=
  match cs.dropWhile isWs with
  | c1 :: c2 :: c3 :: _ =>
    if c1 = '(' ∧ (c2 = 'm' ∨ c2 = 'f') ∧ c3 = ')' then some c2 else none
  | _ => none

/-- Lazy scan for `^(?P<source_noun>.+?)\s*\((?P<source_noun_gender>[mf])\)`:
extend the (non-empty) noun prefix one character at a time and take the
first position where the gender-marker pattern matches. -/
def extractNounGo (acc : List Char) : List Char → Option (List Char × Char)
  | [] => none
  | c :: rest =>
    match matchGenderAt rest with
    | some g => some (acc ++ [c], g)
    | none => extractNounGo (acc ++ [c]) rest

/-- Embeds `extract_noun(source_phrase)`: `(is_source_noun, source_noun,
source_noun_gender)`, the latter two `none` when the regex does not match. -/
def extract_noun (source_phrase : String) : Bool × Option String × Option String :=
  match extractNounGo [] source_phrase.data with
  | some (noun, g) => (true, some (String.mk noun), some (String.mk [g]))
  | none => (false, none, none)

/-- Split a character list at its last `)`: `some (before, after)`. -/
def lastSplitAtRparen (cs : List Char) : Option (List Char × List Char) :=
  match breakAtSub [')'] cs.reverse with
  | some (rafter, rbefore) => some (rbefore.reverse, rafter.reverse)
  | none => none

/-- Find the first `(` (each scanned position has a preceding character)
that is followed by some `)`; return the greedy capture up to the last `)`
together with the remainder after it, as `.+?\((.*)\)` matches. -/
def findOpenWithClose : List Char → Option (List Char × List Char)
  | [] => none
  | c :: rest =>
    if c = '(' then
      match lastSplitAtRparen rest with
      | some (cap, rem) => some (cap, rem)
      | none => none
    else findOpenWithClose rest

/-- `re.findall(r'.+?\((.*)\)', s)` group captures, with a character-count
fuel (each match consumes at least two characters, so `|s|` steps suffice). -/
def bracketCapturesGo : Nat → List Char → List String
  | 0, _ => []
  | _ + 1, [] => []
  | fuel + 1, _c :: rest =>
    match findOpenWithClose rest with
    | some (cap, rem) => String.mk cap :: bracketCapturesGo fuel rem
    | none => []

/-- The parenthesized captures of `source_phrase` used by the invalid
gender-marker check. -/
def bracketCaptures (s : String) : List String :=
  bracketCapturesGo s.data.length s.data

/-! ### Corpus parser (`convert_csv_to_dataframe`, lines 284–343) -/

/-- The `ValueError`s raised while parsing a corpus.  Indices are the
`enumerate(file)` values, which start at 0. -/
inductive ParseError
  | headerAlreadySet (idx : Nat)
  | emptySourceOrTarget (idx : Nat)
  | invalidGenderValue (idx : Nat)
  | noHeader
deriving DecidableEq, Repr

/-- Successful parse: the `(source, target)` phrase pairs (source already
first-character-lowercased), the header languages and the preserved
preamble (`key_comment`). -/
structure ParseOk where
  pairs : List (String × String)
  src_hdr : String
  tgt_hdr : String
  key_comment : List String
deriving DecidableEq, Repr

/-- Parser loop state: accumulated pairs, optional header fields and the
running comment buffers. -/
structure ParseSt where
  pairs : List (String × String)
  src_hdr : Option String
  tgt_hdr : Option String
  key_comment : List String
  comment : List String
deriving DecidableEq, Repr

/-- One `for idx, line in enumerate(file)` iteration chain of
`convert_csv_to_dataframe`.  Lines are modelled without their trailing
newline (the code strips it via `rstrip`). -/
def parseLines : List String → Nat → ParseSt → Except ParseError ParseSt
  | [], _, st => .ok st
  | line :: rest, idx, st =>
    if pyStartsWith line "#" || isBlankStr line then
      parseLines rest (idx + 1) { st with comment := st.comment ++ [pyRstripNl line] }
    else if pyStartsWith line ">" then
      if truthyStr st.src_hdr then .error (.headerAlreadySet idx)
      else
        let comment' := st.comment ++ [pyRstripNl line]
        let lineP := pyPartition (pyRstrip line) ": "
        let src_hdr := String.mk (lineP.1.data.drop 1)
        let tgt_hdr := lineP.2.2
        parseLines rest (idx + 1)
          { st with comment := comment', src_hdr := some src_hdr,
                    tgt_hdr := some tgt_hdr, key_comment := comment' }
    else
      if (pyPartition (pyRstrip line) ": ").1 = "" ∨
          (pyPartition (pyRstrip line) ": ").2.2 = "" then
        .error (.emptySourceOrTarget idx)
      else
        if bracketCaptures (pyPartition (pyRstrip line) ": ").1 ≠ [] ∧
            "m" ∉ bracketCaptures (pyPartition (pyRstrip line) ": ").1 ∧
            "f" ∉ bracketCaptures (pyPartition (pyRstrip line) ": ").1 then
          .error (.invalidGenderValue idx)
        else
          parseLines rest (idx + 1)
            { st with pairs := st.pairs ++
                [(lowerFirst (pyPartition (pyRstrip line) ": ").1,
                  (pyPartition (pyRstrip line) ": ").2.2)] }

/-- Embeds the parse phase of `convert_csv_to_dataframe` (before dataframe
construction): iterate the lines, then check a truthy header was found. -/
def parseCsv (lines : List String) : Except ParseError ParseOk :=
  match parseLines lines 0 ⟨[], none, none, [], []⟩ with
  | .error e => .error e
  | .ok st =>
    if truthyStr st.src_hdr && truthyStr st.tgt_hdr then
      .ok ⟨st.pairs, st.src_hdr.getD "", st.tgt_hdr.getD "", st.key_comment⟩
    else .error .noHeader

/-! ### Language records (`LanguageDataSchema` rows) -/

/-- One row of the language dataframe built by `convert_csv_to_dataframe`.
Optional fields model the `None` entries pandas stores for non-noun rows. -/
structure LanguageRecord where
  source_phrase : String
  target_phrase : String
  source_language : String
  target_language : String
  is_source_noun : Bool
  source_noun : Option String
  source_noun_gender : Option String
  target_phrase_short : String
  is_ignore_translation_error : Bool
  source_phrase_no_diacritic : String
deriving DecidableEq, Repr

/-- The bulk column derivations of `convert_csv_to_dataframe` (lines
353–374) applied to one parsed `(source, target)` pair.  `fold` is the
`unidecode.unidecode` transliteration table, an external library treated
as an oracle. -/
def mkRecord (fold : String → String) (src_hdr tgt_hdr : String)
    (p : String × String) : LanguageRecord :=
  let noun := extract_noun p.1
  let short := get_phrase_short p.2 "#" ignoreLit
  { source_phrase := p.1
    target_phrase := p.2
    source_language := src_hdr
    target_language := tgt_hdr
    is_source_noun := noun.1
    source_noun := noun.2.1
    source_noun_gender := noun.2.2
    target_phrase_short := clean short.1
    is_ignore_translation_error := short.2
    source_phrase_no_diacritic := fold p.1 }

/-- The record set a successful parse produces (one row per pair, language
columns constant). -/
def parsedRecords (fold : String → String) (p : ParseOk) : List LanguageRecord :=
  p.pairs.map (mkRecord fold p.src_hdr p.tgt_hdr)

/-! ### Duplicate & sort reconciler (`sort_and_remove_duplicates`) -/

/-- `pandas.DataFrame.duplicated()` (keep='first'): the sublist of elements
that have an earlier equal element (`seen` carries the prefix already
scanned). -/
def markedDups {α : Type} [DecidableEq α] : List α → List α → List α
  | _, [] => []
  | seen, a :: l =>
    if a ∈ seen then a :: markedDups seen l else markedDups (a :: seen) l

/-- `pandas.DataFrame.drop_duplicates()` (keep='first'): keep the first
occurrence of each value. -/
def keepFirst {α : Type} [DecidableEq α] : List α → List α → List α
  | _, [] => []
  | seen, a :: l =>
    if a ∈ seen then keepFirst seen l else a :: keepFirst (a :: seen) l

/-- `df.duplicated().sum()`. -/
def dupCount {α : Type} [DecidableEq α] (l : List α) : Nat :=
  (markedDups [] l).length

/-- The sort key column. -/
def recKey (r : LanguageRecord) : String := r.source_phrase_no_diacritic

/-- The order used by `df.sort_values(by=['source_phrase_no_diacritic'],
ascending=True)`. -/
def recLE (a b : LanguageRecord) : Prop := leStr (recKey a) (recKey b) = true

instance : DecidableRel recLE := fun _a _b => instDecidableEqBool _ true

instance : IsTotal LanguageRecord recLE := ⟨fun _a _b => leStr_total _ _⟩

instance : IsTrans LanguageRecord recLE := ⟨fun _ _ _ => leStr_trans⟩

/-- `df.sort_values` on the diacritic-free key. -/
def sortRecs (l : List LanguageRecord) : List LanguageRecord :=
  List.insertionSort recLE l

/-- The `(source_phrase, target_phrase)` projection used for the
duplicates log. -/
def recPair (r : LanguageRecord) : String × String :=
  (r.source_phrase, r.target_phrase)

/-- Occurrence count (`Series.value_counts` / `groupby(...).size()`
arithmetic), fixed to the decidable-equality comparison used throughout. -/
def countOcc {α : Type} [DecidableEq α] (x : α) (l : List α) : Nat :=
  List.count x l

/-- `df_dups[df_dups.duplicated()].groupby(...).size()`: the repeated
pairs of the sorted pair column, one entry per distinct repeated pair with
its number of marked (i.e. beyond-the-first) occurrences. -/
def dupGroups (pairs : List (String × String)) : List ((String × String) × Nat) :=
  let marked := markedDups [] pairs
  (keepFirst [] marked).map (fun p => (p, countOcc p marked))

/-- Outcome of `sort_and_remove_duplicates`: the returned record set, the
duplicate groups appended to the duplicates log (empty when no duplicate
exists) and the new corpus content when the corpus was rewritten (`none`
when the file is left untouched). -/
structure ReconcileResult where
  records : List LanguageRecord
  logAppend : List ((String × String) × Nat)
  rewritten : Option (List String)
deriving DecidableEq, Repr

/-- Embeds `sort_and_remove_duplicates(df, words_csv, key_comment)` (file
names and timestamps aside): sort by the diacritic-free key, detect exact
full-record duplicates of the original frame, log and drop them, and
rewrite the corpus (preamble then `source: target` lines in sorted order)
iff duplicates existed or the original order was not sorted. -/
def sort_and_remove_duplicates (df : List LanguageRecord)
    (key_comment : List String) : ReconcileResult :=
  let df_sorted := sortRecs df
  let is_original_sorted : Bool := df.map recKey == df_sorted.map recKey
  let duplicated_count := dupCount df
  let is_original_has_duplicates : Bool := !(duplicated_count == 0)
  let df_final := if is_original_has_duplicates then keepFirst [] df_sorted else df_sorted
  { records := df_final
    logAppend := if is_original_has_duplicates then dupGroups (df_sorted.map recPair) else []
    rewritten :=
      if is_original_has_duplicates || !is_original_sorted then
        some (key_comment ++ df_final.map (fun r => r.source_phrase ++ ": " ++ r.target_phrase))
      else none }

/-- The files `sort_and_remove_duplicates` touches: the live corpus, the
sibling duplicates log, and the timestamped archive copies (never
deleted). -/
structure FS where
  corpus : List String
  dupLog : List String
  archived : List (List String)
deriving DecidableEq, Repr

/-- Rendering of one duplicates-log group, as `Series.to_csv(header=False)`
writes `source,target,count` lines (CSV quoting not modelled). -/
def renderGroup (g : (String × String) × Nat) : String :=
  g.1.1 ++ "," ++ g.1.2 ++ "," ++ toString g.2

/-- Apply the reconciler's file effects: append banner and groups to the
duplicates log (mode `'a'`), archive the prior corpus and replace it when
a rewrite happened.  `banner` stands for the timestamped header line. -/
def reconcileFS (df : List LanguageRecord) (key_comment : List String)
    (banner : String) (fs : FS) : List LanguageRecord × FS :=
  let res := sort_and_remove_duplicates df key_comment
  (res.records,
    { corpus := res.rewritten.getD fs.corpus
      dupLog :=
        if res.logAppend.isEmpty then fs.dupLog
        else fs.dupLog ++ (banner :: res.logAppend.map renderGroup)
      archived := if res.rewritten.isSome then fs.archived ++ [fs.corpus] else fs.archived })

/-! ### Checkers and factory (`translation.py`) -/

/-- The external collaborators of the verification engine: the translation
API (`GoogleTranslator(...).translate`, which may raise — modelled as
`Except` carrying `str(e)`), the fuzzy matcher (`fuzz.token_set_ratio`)
and the pylexique lexicon (`lex383.lexique`, mapping a word form to its
`(cgram, genre)` items, `none` when the word is absent).  The single-item
versus list-of-items shapes pylexique returns are both modelled as the
resulting pair list. -/
structure ExternalServices where
  translate : String → String → String → Except String String
  fuzzer : String → String → Int
  lexicon : String → Option (List (String × String))

/-- Which checker class the factory instantiated. -/
inductive CheckerKind
  | generic
  | frenchEnglish
deriving DecidableEq, Repr

/-- A `TranslationChecker` instance: the languages stored by `__init__`
(lowercased) and the class. -/
structure Checker where
  source_language : String
  target_language : String
  kind : CheckerKind
deriving DecidableEq, Repr

/-- Lowercase a string, `str.lower()` (ASCII case mapping, which covers
the language names the factory compares). -/
def pyLower (s : String) : String := String.mk (s.data.map Char.toLower)

/-- Embeds `TranslationCheckerFactory.get_checker`: French→English
(case-insensitively) gets the specialised checker, everything else the
generic one. -/
def get_checker (source_language target_language : String) : Checker :=
  if pyLower source_language = "french" ∧ pyLower target_language = "english" then
    { source_language := "french", target_language := "english", kind := .frenchEnglish }
  else
    { source_language := pyLower source_language, target_language := pyLower target_language,
      kind := .generic }

/-- The dictionary `check_translation` returns. -/
structure TransRes where
  translation : Option String
  fuzzy_ratio : Option Int
  translation_error : Option String
deriving DecidableEq, Repr

/-- Embeds `GenericTranslationChecker.check_translation`: on API success
the fuzzy ratio is computed and the error is `None`; on an exception all
but the error text is `None`. -/
def check_translation (svc : ExternalServices) (ck : Checker)
    (source_text provided_target_translation : String) : TransRes :=
  match svc.translate ck.source_language ck.target_language source_text with
  | .ok translation_result =>
    { translation := some translation_result
      fuzzy_ratio := some (svc.fuzzer translation_result provided_target_translation)
      translation_error := none }
  | .error e =>
    { translation := none, fuzzy_ratio := none, translation_error := some e }

/-- The dictionary `validate_gender` returns. -/
structure GenderRes where
  is_gender_match : Option Bool
  lexical_gender : Option String
  gender_error : Option String
deriving DecidableEq, Repr

/-- Embeds `get_pylexique_gender_from_cgram_genre_pair_list`: collect the
distinct non-empty genders of the `(cgram, genre)` pairs; exactly one
distinct gender determines it, zero or several do not. -/
def genderFromPairs : Option (List (String × String)) → Option String
  | none => none
  | some cgram_genre_pairs =>
    let unique_genders := ((cgram_genre_pairs.map Prod.snd).filter (fun g => g ≠ "")).dedup
    match unique_genders with
    | [] => none
    | [g] => some g
    | _ :: _ :: _ => none

/-- The gender-indeterminate error text of `validate_gender` (the source
literal, stray quote and parenthesis included). -/
def genderNotDeterminedMsg : String := "\x27gender could not be determined)"

/-- Render an optional string the way a Python f-string prints the
variable (`None` for absent). -/
def pyShow : Option String → String
  | none => "None"
  | some s => s

/-- Embeds `FrenchEnglishChecker.validate_gender`: lexicon miss (or empty
item list, both falsy) reports the not-found error; found but
indeterminate gender reports the not-determined error with
`lexical_gender` set to the (absent) determined gender; otherwise compare
with the provided gender. -/
def fe_validate_gender (svc : ExternalServices) (french_noun : String)
    (provided_gender : Option String) : GenderRes :=
  let cgram_genre_pair_list := svc.lexicon french_noun
  if cgram_genre_pair_list = none ∨ cgram_genre_pair_list = some [] then
    { is_gender_match := none, lexical_gender := none
      gender_error := some ("noun \x27" ++ french_noun ++
        "\x27 not in lexical database, check for diacritics") }
  else
    match genderFromPairs cgram_genre_pair_list with
    | none =>
      { is_gender_match := none, lexical_gender := none
        gender_error := some genderNotDeterminedMsg }
    | some lexique_gender =>
      if provided_gender = some lexique_gender then
        { is_gender_match := some true, lexical_gender := some lexique_gender
          gender_error := none }
      else
        { is_gender_match := some false, lexical_gender := some lexique_gender
          gender_error := some ("gender mismatch: laxical gender \x27" ++ lexique_gender ++
            "\x27 does not match provided gender \x27" ++ pyShow provided_gender ++ "\x27") }

/-- Embeds `validate_gender` dispatch: the generic checker always reports
gender validation as unimplemented with both result fields absent. -/
def validate_gender (svc : ExternalServices) (ck : Checker) (source_noun : String)
    (provided_gender : Option String) : GenderRes :=
  match ck.kind with
  | .generic =>
    { is_gender_match := none, lexical_gender := none
      gender_error := some "Gender validation not implemented for this language pair." }
  | .frenchEnglish => fe_validate_gender svc source_noun provided_gender

/-! ### Review classification (`check_df_translation.py`) -/

/-- `FUZZY_RATIO_THRESHOLD`. -/
def fuzzyThreshold : Int := 85

/-- The summary dictionary `analyse_errors` builds, with the review-reason
code list kept as a list (the dictionary stores its `'; '.join`). -/
structure ErrSummary where
  is_needs_review : Bool
  codes : List String
  details : List String
deriving DecidableEq, Repr

/-- `'; '.join`. -/
def joinSemi : List String → String
  | [] => ""
  | [x] => x
  | x :: y :: rest => x ++ "; " ++ joinSemi (y :: rest)

/-- The review-reason code list in the fixed evaluation order TM, TE, NNF,
GNF, GM of `analyse_errors`. -/
def mkCodes (tm te nnf gnf gm : Bool) : List String :=
  (if tm then ["TM"] else []) ++ (if te then ["TE"] else []) ++
    (if nnf then ["NNF"] else []) ++ (if gnf then ["GNF"] else []) ++
    (if gm then ["GM"] else [])

/-- Evaluation of the first guard, `not translation_error and fuzzy_ratio
< FUZZY_RATIO_THRESHOLD`: the comparison only runs when the error is
falsy, and `None < 85` is a `TypeError` (`none`). -/
def tmEval (translation_error : Option String) (fuzzy_ratio : Option Int) : Option Bool :=
  if truthyStr translation_error then some false
  else fuzzy_ratio.map (fun fr => decide (fr < fuzzyThreshold))

/-- The NNF guard of `analyse_errors` (lines 82–83). -/
def nnfFlag (is_source_noun : Bool) (gender_error : Option String)
    (is_gender_match : Option Bool) (lexical_gender : Option String) : Bool :=
  is_source_noun && truthyStr gender_error &&
    decide (is_gender_match = none) && decide (lexical_gender = none)

/-- The GNF guard of `analyse_errors` (lines 89–90). -/
def gnfFlag (is_source_noun : Bool) (gender_error : Option String)
    (is_gender_match : Option Bool) (lexical_gender : Option String) : Bool :=
  is_source_noun && truthyStr gender_error &&
    decide (is_gender_match = none) && truthyStr lexical_gender

/-- The GM guard of `analyse_errors` (lines 96–97). -/
def gmFlag (is_source_noun : Bool) (gender_error : Option String)
    (is_gender_match : Option Bool) : Bool :=
  is_source_noun && truthyStr gender_error && decide (is_gender_match = some false)

/-- Embeds `analyse_errors`.  The TM test `not translation_error and
fuzzy_ratio < FUZZY_RATIO_THRESHOLD` compares `None < 85` — a `TypeError`
— whenever the error is falsy while the ratio is absent (reachable only
for an exception whose text is empty); that crash is modelled as `none`. -/
def analyse_errors (translation_error : Option String) (fuzzy_ratio : Option Int)
    (is_source_noun : Bool) (gender_error : Option String)
    (is_gender_match : Option Bool) (lexical_gender : Option String) :
    Option ErrSummary :=
  match tmEval translation_error fuzzy_ratio with
  | none => none
  | some tm =>
    let te := truthyStr translation_error
    let nnf := nnfFlag is_source_noun gender_error is_gender_match lexical_gender
    let gnf := gnfFlag is_source_noun gender_error is_gender_match lexical_gender
    let gm := gmFlag is_source_noun gender_error is_gender_match
    some
      { is_needs_review := tm || te || nnf || gnf || gm
        codes := mkCodes tm te nnf gnf gm
        details :=
          (if tm then
            ["TM: Translation Mismatch (fuzzy ratio < threshold) - " ++
              toString (fuzzy_ratio.getD 0)] else []) ++
          (if te then ["TE: " ++ pyShow translation_error] else []) ++
          (if nnf then ["NNF: " ++ pyShow gender_error] else []) ++
          (if gnf then ["GNF: " ++ pyShow gender_error] else []) ++
          (if gm then ["GM: " ++ pyShow gender_error] else []) }

/-! ### Per-record report synthesis (`main` loop, lines 166–246) -/

/-- One row appended to `validation_results`, field for field. -/
structure ReportRow where
  source_phrase : String
  target_phrase : String
  target_phrase_short : String
  source_language : String
  target_language : String
  is_source_noun : Bool
  source_noun : Option String
  source_noun_gender : Option String
  is_ignore_translation_error : Bool
  source_phrase_no_diacritic : String
  translation : Option String
  fuzzy_ratio : Option Int
  is_gender_match : Option Bool
  lexical_gender : Option String
  is_needs_review : Bool
  review_reason : String
  review_detail : String
  is_ok_to_display : Bool
deriving DecidableEq, Repr

/-- The translation check the loop performs for a record: the noun for
noun rows, the full source phrase otherwise, against the short target. -/
def recTransRes (svc : ExternalServices) (ck : Checker) (r : LanguageRecord) : TransRes :=
  if r.is_source_noun then
    check_translation svc ck (r.source_noun.getD "") r.target_phrase_short
  else
    check_translation svc ck r.source_phrase r.target_phrase_short

/-- The gender check the loop performs: only noun rows are validated; the
fields stay `None` otherwise. -/
def recGenderRes (svc : ExternalServices) (ck : Checker) (r : LanguageRecord) :
    Option GenderRes :=
  if r.is_source_noun then
    some (validate_gender svc ck (r.source_noun.getD "") r.source_noun_gender)
  else none

/-- The `analyse_errors` summary for a record (`none` on the modelled
`TypeError`). -/
def recSummary (svc : ExternalServices) (ck : Checker) (r : LanguageRecord) :
    Option ErrSummary :=
  let tres := recTransRes svc ck r
  let g := recGenderRes svc ck r
  analyse_errors tres.translation_error tres.fuzzy_ratio r.is_source_noun
    (match g with | some gr => gr.gender_error | none => none)
    (match g with | some gr => gr.is_gender_match | none => none)
    (match g with | some gr => gr.lexical_gender | none => none)

/-- One iteration of the report loop: run both checks, classify, and build
the `validation_results` row, with `is_ok_to_display` as on line 218. -/
def processRecord (svc : ExternalServices) (ck : Checker) (r : LanguageRecord) :
    Option ReportRow :=
  let tres := recTransRes svc ck r
  let g := recGenderRes svc ck r
  (recSummary svc ck r).map fun sum =>
    { source_phrase := r.source_phrase
      target_phrase := r.target_phrase
      target_phrase_short := r.target_phrase_short
      source_language := r.source_language
      target_language := r.target_language
      is_source_noun := r.is_source_noun
      source_noun := r.source_noun
      source_noun_gender := r.source_noun_gender
      is_ignore_translation_error := r.is_ignore_translation_error
      source_phrase_no_diacritic := r.source_phrase_no_diacritic
      translation := tres.translation
      fuzzy_ratio := tres.fuzzy_ratio
      is_gender_match := match g with | some gr => gr.is_gender_match | none => none
      lexical_gender := match g with | some gr => gr.lexical_gender | none => none
      is_needs_review := sum.is_needs_review
      review_reason := joinSemi sum.codes
      review_detail := joinSemi sum.details
      is_ok_to_display := !sum.is_needs_review || r.is_ignore_translation_error }

/-- `dfv.is_gender_match = dfv.is_gender_match.astype(bool)` (line 252):
the persisted report's column is a plain boolean column, `bool(None)`
being `False`. -/
def applyAstype (row : ReportRow) : ReportRow :=
  { row with is_gender_match := some (row.is_gender_match.getD false) }

/-! ### Schema validation (`data_schema.py`) -/

/-- The annotation types `validate_dataframe_schema` distinguishes when
mapping a declared field type to the expected pandas dtype name. -/
inductive PyType
  | strT
  | optStrT
  | litMF
  | optLitMF
  | boolT
  | optBoolT
  | intT
  | floatT
  | otherT
deriving DecidableEq, Repr

/-- The `expected_dtype_name_check` cascade of `validate_dataframe_schema`. -/
def expectedDtypeName : PyType → String
  | .strT => "object"
  | .optStrT => "object"
  | .litMF => "object"
  | .optLitMF => "object"
  | .boolT => "bool"
  | .optBoolT => "bool"
  | .intT => "int64"
  | .floatT => "float64"
  | .otherT => "object"

/-- `LanguageDataSchema.__annotations__`, in declaration order. -/
def languageDataSchema : List (String × PyType) :=
  [("source_phrase", .strT), ("target_phrase", .strT),
   ("source_language", .strT), ("target_language", .strT),
   ("is_source_noun", .optBoolT), ("source_noun", .strT),
   ("source_noun_gender", .optLitMF), ("target_phrase_short", .strT),
   ("is_ignore_translation_error", .boolT), ("source_phrase_no_diacritic", .strT)]

/-- `ValidationReportDataSchema.__annotations__` (the inherited fields
first, as Python resolves them). -/
def validationReportDataSchema : List (String × PyType) :=
  languageDataSchema ++
    [("translation", .strT), ("fuzzy_ratio", .intT), ("lexical_gender", .optLitMF),
     ("is_gender_match", .boolT), ("is_needs_review", .boolT),
     ("review_reason", .strT), ("review_detail", .strT), ("is_ok_to_display", .boolT)]

/-- The two exception classes the validator raises: `ValueError` for a
field-set mismatch (carrying both sorted column lists) and `TypeError`
for a field-type mismatch (naming the column and both dtype names). -/
inductive SchemaError
  | fieldSetMismatch (expected actual : List String)
  | fieldTypeMismatch (col expectedDtype actualDtype : String)
deriving DecidableEq, Repr

/-- The order `sorted()` uses on column-name strings. -/
def strLE (a b : String) : Prop := leStr a b = true

instance : DecidableRel strLE := fun _a _b => instDecidableEqBool _ true

instance : IsTotal String strLE := ⟨fun _a _b => leStr_total _ _⟩

instance : IsTrans String strLE := ⟨fun _ _ _ => leStr_trans⟩

instance : IsAntisymm String strLE := ⟨fun _ _ => leStr_antisymm⟩

/-- Python `sorted()` on a list of strings. -/
def sortStrings (l : List String) : List String := List.insertionSort strLE l

/-- The column dtype loop of `validate_dataframe_schema`: first mismatch
raises.  A dataframe is modelled as its `(column name, dtype name)`
pairs. -/
def checkDtypes (df : List (String × String)) :
    List (String × PyType) → Except SchemaError Unit
  | [] => .ok ()
  | (col_name, expected_type) :: rest =>
    let actual_dtype_name := (df.lookup col_name).getD ""
    if actual_dtype_name = expectedDtypeName expected_type then checkDtypes df rest
    else .error (.fieldTypeMismatch col_name (expectedDtypeName expected_type) actual_dtype_name)

/-- Embeds `validate_dataframe_schema(df, expected_schema)`: sorted column
names must coincide, then every column's dtype must equal the expected
dtype name. -/
def validate_dataframe_schema (df : List (String × String))
    (expected_schema : List (String × PyType)) : Except SchemaError Unit :=
  let expected_columns := sortStrings (expected_schema.map Prod.fst)
  let actual_columns := sortStrings (df.map Prod.fst)
  if actual_columns ≠ expected_columns then
    .error (.fieldSetMismatch expected_columns actual_columns)
  else checkDtypes df expected_schema

/-- The error classes `load_report_data_df_from_feather` surfaces. -/
inductive LoadError
  | fileNotFound
  | runtimeReadError (msg : String)
  | schemaError (e : SchemaError)
deriving DecidableEq, Repr

/-- Embeds `load_report_data_df_from_feather`: the Feather read (an
external I/O step, passed as its result) is wrapped, then the loaded
table is validated against the report schema before being returned. -/
def load_report_data_df (readResult : Except LoadError (List (String × String))) :
    Except LoadError (List (String × String)) :=
  match readResult with
  | .error e => .error e
  | .ok df =>
    match validate_dataframe_schema df validationReportDataSchema with
    | .error e => .error (.schemaError e)
    | .ok _ => .ok df

/-! ### Lemmas about `markedDups` and `keepFirst` -/

section DedupLemmas

variable {α : Type} [DecidableEq α]

theorem keepFirst_length_add (seen l : List α) :
    (keepFirst seen l).length + (markedDups seen l).length = l.length := by
  induction l generalizing seen with
  | nil => rfl
  | cons a l ih =>
    by_cases h : a ∈ seen
    · have := ih seen
      simp only [keepFirst, markedDups, if_pos h, List.length_cons]
      omega
    · have := ih (a :: seen)
      simp only [keepFirst, markedDups, if_neg h, List.length_cons]
      omega

theorem mem_keepFirst {x : α} (seen l : List α) :
    x ∈ keepFirst seen l ↔ x ∈ l ∧ x ∉ seen := by
  induction l generalizing seen with
  | nil => simp [keepFirst]
  | cons a l ih =>
    by_cases h : a ∈ seen
    · rw [keepFirst, if_pos h, ih]
      constructor
      · rintro ⟨hx, hns⟩; exact ⟨List.mem_cons_of_mem _ hx, hns⟩
      · rintro ⟨hx, hns⟩
        rcases List.mem_cons.mp hx with rfl | hx
        · exact absurd h hns
        · exact ⟨hx, hns⟩
    · rw [keepFirst, if_neg h]
      constructor
      · intro hx
        rcases List.mem_cons.mp hx with rfl | hx
        · exact ⟨List.mem_cons_self _ _, h⟩
        · have := (ih (a :: seen)).mp hx
          refine ⟨List.mem_cons_of_mem _ this.1, fun hc => this.2 (List.mem_cons_of_mem _ hc)⟩
      · rintro ⟨hx, hns⟩
        rcases List.mem_cons.mp hx with rfl | hx
        · exact List.mem_cons_self _ _
        · by_cases hxa : x = a
          · subst hxa; exact List.mem_cons_self _ _
          · exact List.mem_cons_of_mem _ ((ih (a :: seen)).mpr
              ⟨hx, fun hc => (List.mem_cons.mp hc).elim hxa hns⟩)

theorem nodup_keepFirst (seen l : List α) : (keepFirst seen l).Nodup := by
  induction l generalizing seen with
  | nil => exact List.nodup_nil
  | cons a l ih =>
    by_cases h : a ∈ seen
    · rw [keepFirst, if_pos h]; exact ih seen
    · rw [keepFirst, if_neg h]
      refine List.nodup_cons.mpr ⟨fun hc => ?_, ih (a :: seen)⟩
      exact ((mem_keepFirst _ _).mp hc).2 (List.mem_cons_self _ _)

theorem keepFirst_sublist (seen l : List α) : List.Sublist (keepFirst seen l) l := by
  induction l generalizing seen with
  | nil => exact List.Sublist.refl _
  | cons a l ih =>
    by_cases h : a ∈ seen
    · rw [keepFirst, if_pos h]; exact List.Sublist.cons a (ih seen)
    · rw [keepFirst, if_neg h]; exact List.Sublist.cons₂ a (ih (a :: seen))

theorem count_markedDups (x : α) (seen l : List α) :
    countOcc x (markedDups seen l) =
      if x ∈ seen then countOcc x l else countOcc x l - 1 := by
  simp only [countOcc]
  induction l generalizing seen with
  | nil => by_cases h : x ∈ seen <;> simp [markedDups, h]
  | cons a l ih =>
    by_cases ha : a ∈ seen
    · rw [markedDups, if_pos ha]
      by_cases hx : x ∈ seen
      · simp [List.count_cons, ih seen, hx]
      · have hax : ¬a = x := by rintro rfl; exact hx ha
        simp [List.count_cons, ih seen, hx, hax]
    · rw [markedDups, if_neg ha, ih (a :: seen)]
      by_cases hx : x ∈ seen
      · have hax : ¬a = x := by rintro rfl; exact ha hx
        simp [List.count_cons, hx, List.mem_cons_of_mem a hx, hax]
      · by_cases hxa : x = a
        · subst hxa
          simp [List.count_cons, hx, List.mem_cons_self x seen]
        · have hax : ¬a = x := fun h => hxa h.symm
          have hxmem : x ∉ a :: seen := by
            intro hc; exact (List.mem_cons.mp hc).elim hxa hx
          simp [List.count_cons, hx, hxmem, hax]

theorem markedDups_eq_nil {l : List α} (seen : List α) (hnd : l.Nodup)
    (hdisj : ∀ a ∈ l, a ∉ seen) : markedDups seen l = [] := by
  induction l generalizing seen with
  | nil => rfl
  | cons a l ih =>
    have ha : a ∉ seen := hdisj a (List.mem_cons_self _ _)
    rw [markedDups, if_neg ha]
    refine ih (a :: seen) (List.nodup_cons.mp hnd).2 (fun b hb hc => ?_)
    rcases List.mem_cons.mp hc with rfl | hc
    · exact (List.nodup_cons.mp hnd).1 hb
    · exact hdisj b (List.mem_cons_of_mem _ hb) hc

theorem keepFirst_eq_self {l : List α} (seen : List α) (hnd : l.Nodup)
    (hdisj : ∀ a ∈ l, a ∉ seen) : keepFirst seen l = l := by
  induction l generalizing seen with
  | nil => rfl
  | cons a l ih =>
    have ha : a ∉ seen := hdisj a (List.mem_cons_self _ _)
    rw [keepFirst, if_neg ha]
    refine congrArg (a :: ·) (ih (a :: seen) (List.nodup_cons.mp hnd).2 (fun b hb hc => ?_))
    rcases List.mem_cons.mp hc with rfl | hc
    · exact (List.nodup_cons.mp hnd).1 hb
    · exact hdisj b (List.mem_cons_of_mem _ hb) hc

theorem toFinset_keepFirst (l : List α) : (keepFirst [] l).toFinset = l.toFinset := by
  ext x
  simp [List.mem_toFinset, mem_keepFirst]

theorem length_keepFirst_eq_card (l : List α) :
    (keepFirst [] l).length = l.toFinset.card := by
  rw [← List.toFinset_card_of_nodup (nodup_keepFirst [] l), toFinset_keepFirst]

theorem dupCount_eq_sub (l : List α) : dupCount l = l.length - l.toFinset.card := by
  have h := keepFirst_length_add ([] : List α) l
  rw [length_keepFirst_eq_card] at h
  unfold dupCount
  omega

theorem card_toFinset_le_length (l : List α) : l.toFinset.card ≤ l.length := by
  have h := keepFirst_length_add ([] : List α) l
  rw [length_keepFirst_eq_card] at h
  omega

theorem perm_toFinset_eq {l l' : List α} (h : l.Perm l') : l.toFinset = l'.toFinset :=
  Finset.ext fun a => by simp [List.mem_toFinset, h.mem_iff]

theorem dupCount_perm {l l' : List α} (h : l.Perm l') : dupCount l = dupCount l' := by
  rw [dupCount_eq_sub, dupCount_eq_sub, h.length_eq, perm_toFinset_eq h]

theorem nodup_of_dupCount_eq_zero {l : List α} (h : dupCount l = 0) : l.Nodup := by
  refine List.nodup_iff_count_le_one.mpr (fun a => ?_)
  have hc := count_markedDups a ([] : List α) l
  rw [if_neg (List.not_mem_nil a)] at hc
  have hz : countOcc a (markedDups [] l) = 0 := by
    have hlen : markedDups [] l = [] := List.length_eq_zero.mp h
    rw [hlen]; rfl
  rw [hc] at hz
  simp only [countOcc] at hz
  omega

theorem countOcc_pos {a : α} {l : List α} : 0 < countOcc a l ↔ a ∈ l := by
  simp only [countOcc]
  exact List.count_pos_iff

theorem countOcc_le_one_of_nodup {a : α} {l : List α} (h : l.Nodup) : countOcc a l ≤ 1 := by
  simp only [countOcc]
  exact List.nodup_iff_count_le_one.mp h a

theorem keepFirst_count_sum (y : List α) :
    ((keepFirst [] y).map (fun a => countOcc a y)).sum = y.length := by
  simp only [countOcc]
  have h1 := List.sum_toFinset (fun a => List.count a y) (nodup_keepFirst [] y)
  rw [toFinset_keepFirst] at h1
  rw [← h1, List.sum_toFinset_count_eq_length]

end DedupLemmas

theorem dupCount_map_inj {α β : Type} [DecidableEq α] [DecidableEq β] (f : α → β)
    (l : List α) (hinj : ∀ x ∈ l, ∀ y ∈ l, f x = f y → x = y) :
    dupCount (l.map f) = dupCount l := by
  rw [dupCount_eq_sub, dupCount_eq_sub, List.length_map]
  have himg : (l.map f).toFinset = l.toFinset.image f := Finset.ext fun b => by simp
  rw [himg, Finset.card_image_of_injOn (fun x hx y hy h =>
    hinj x (List.mem_toFinset.mp hx) y (List.mem_toFinset.mp hy) h)]

/-! ### Reconciler-level lemmas -/

theorem sortRecs_perm (l : List LanguageRecord) : (sortRecs l).Perm l :=
  List.perm_insertionSort recLE l

/-- The record set `sort_and_remove_duplicates` returns is always the
keep-first deduplication of the sorted frame (when no duplicate exists,
`drop_duplicates` would not change the sorted frame anyway). -/
theorem records_eq_keepFirst (df : List LanguageRecord) (kc : List String) :
    (sort_and_remove_duplicates df kc).records = keepFirst [] (sortRecs df) := by
  by_cases h : dupCount df = 0
  · have hnd : (sortRecs df).Nodup :=
      ((sortRecs_perm df).nodup_iff).mpr (nodup_of_dupCount_eq_zero h)
    have hkf : keepFirst [] (sortRecs df) = sortRecs df :=
      keepFirst_eq_self [] hnd (fun a _ => List.not_mem_nil a)
    simp [sort_and_remove_duplicates, h, hkf]
  · simp [sort_and_remove_duplicates, h]

theorem logAppend_eq (df : List LanguageRecord) (kc : List String) :
    (sort_and_remove_duplicates df kc).logAppend =
      if dupCount df = 0 then [] else dupGroups ((sortRecs df).map recPair) := by
  by_cases h : dupCount df = 0 <;> simp [sort_and_remove_duplicates, h]

/-- Correctness of the reconciliation step on an arbitrary record set
whose derived fields are a function of the `(source, target)` pair — the
invariant every parsed corpus satisfies. -/
theorem sort_dedup_spec (l : List LanguageRecord) (kc : List String)
    (hinj : ∀ r ∈ l, ∀ s ∈ l, recPair r = recPair s → r = s) :
    (sort_and_remove_duplicates l kc).records.length = l.length - dupCount l ∧
    List.Sublist (sort_and_remove_duplicates l kc).records (sortRecs l) ∧
    (sort_and_remove_duplicates l kc).records.Nodup ∧
    (∀ r, r ∈ (sort_and_remove_duplicates l kc).records ↔ r ∈ l) ∧
    (∀ pr n, (pr, n) ∈ (sort_and_remove_duplicates l kc).logAppend →
      n + 1 = countOcc pr (l.map recPair) ∧ 1 ≤ n) ∧
    (∀ pr, 2 ≤ countOcc pr (l.map recPair) →
      (pr, countOcc pr (l.map recPair) - 1) ∈ (sort_and_remove_duplicates l kc).logAppend) ∧
    ((sort_and_remove_duplicates l kc).logAppend.map Prod.fst).Nodup ∧
    ((sort_and_remove_duplicates l kc).logAppend.map Prod.snd).sum = dupCount l := by
  have hperm : (sortRecs l).Perm l := sortRecs_perm l
  have hrec := records_eq_keepFirst l kc
  have hlog := logAppend_eq l kc
  have hpairsperm : ((sortRecs l).map recPair).Perm (l.map recPair) := hperm.map recPair
  have hcountpairs : ∀ pr, countOcc pr ((sortRecs l).map recPair) =
      countOcc pr (l.map recPair) :=
    fun pr => hpairsperm.count_eq pr
  have hdupmap : dupCount (l.map recPair) = dupCount l := dupCount_map_inj recPair l hinj
  have hmarked : ∀ pr, countOcc pr (markedDups [] ((sortRecs l).map recPair)) =
      countOcc pr ((sortRecs l).map recPair) - 1 := by
    intro pr
    rw [count_markedDups, if_neg (List.not_mem_nil pr)]
  refine ⟨?_, ?_, ?_, ?_, ?_, ?_, ?_, ?_⟩
  · rw [hrec, length_keepFirst_eq_card, perm_toFinset_eq hperm, dupCount_eq_sub]
    have := card_toFinset_le_length l
    omega
  · rw [hrec]; exact keepFirst_sublist [] (sortRecs l)
  · rw [hrec]; exact nodup_keepFirst [] (sortRecs l)
  · intro r
    rw [hrec, mem_keepFirst]
    simp [hperm.mem_iff]
  · intro pr n hmem
    rw [hlog] at hmem
    by_cases h : dupCount l = 0
    · rw [if_pos h] at hmem; exact absurd hmem (List.not_mem_nil _)
    · rw [if_neg h] at hmem
      unfold dupGroups at hmem
      rcases List.mem_map.mp hmem with ⟨p, hp, hpe⟩
      obtain ⟨rfl, rfl⟩ : p = pr ∧ countOcc p (markedDups [] ((sortRecs l).map recPair)) = n :=
        ⟨congrArg Prod.fst hpe, congrArg Prod.snd hpe⟩
      have hpm : p ∈ markedDups [] ((sortRecs l).map recPair) :=
        ((mem_keepFirst _ _).mp hp).1
      have hpos : 0 < countOcc p (markedDups [] ((sortRecs l).map recPair)) :=
        countOcc_pos.mpr hpm
      have h1 := hmarked p
      have h2 := hcountpairs p
      constructor <;> omega
  · intro pr hcnt
    rw [hlog]
    have hge : 2 ≤ countOcc pr ((sortRecs l).map recPair) := by
      rw [hcountpairs]; exact hcnt
    have hposm : 0 < countOcc pr (markedDups [] ((sortRecs l).map recPair)) := by
      rw [hmarked]; omega
    have hmem : pr ∈ markedDups [] ((sortRecs l).map recPair) :=
      countOcc_pos.mp hposm
    have hdup : ¬dupCount l = 0 := by
      intro h0
      have hnd : (l.map recPair).Nodup :=
        List.Nodup.map_on hinj (nodup_of_dupCount_eq_zero h0)
      have hle : countOcc pr (l.map recPair) ≤ 1 := countOcc_le_one_of_nodup hnd
      omega
    rw [if_neg hdup]
    unfold dupGroups
    have hin : pr ∈ keepFirst [] (markedDups [] ((sortRecs l).map recPair)) :=
      (mem_keepFirst _ _).mpr ⟨hmem, List.not_mem_nil pr⟩
    have heq : countOcc pr (markedDups [] ((sortRecs l).map recPair)) =
        countOcc pr (l.map recPair) - 1 := by
      rw [hmarked, hcountpairs]
    rw [← heq]
    exact List.mem_map_of_mem _ hin
  · rw [hlog]
    by_cases h : dupCount l = 0
    · rw [if_pos h]; exact List.nodup_nil
    · rw [if_neg h]
      unfold dupGroups
      rw [List.map_map]
      have hid : (Prod.fst ∘ fun p =>
          (p, countOcc p (markedDups [] ((sortRecs l).map recPair)))) = id := rfl
      rw [hid, List.map_id]
      exact nodup_keepFirst _ _
  · rw [hlog]
    by_cases h : dupCount l = 0
    · rw [if_pos h]; simpa using h.symm
    · rw [if_neg h]
      unfold dupGroups
      rw [List.map_map]
      have hc : (Prod.snd ∘ fun p =>
          (p, countOcc p (markedDups [] ((sortRecs l).map recPair)))) =
          fun p => countOcc p (markedDups [] ((sortRecs l).map recPair)) := rfl
      rw [hc, keepFirst_count_sum]
      show dupCount ((sortRecs l).map recPair) = dupCount l
      rw [dupCount_perm hpairsperm, hdupmap]

/-! ### Claim C2 — dedup correctness of reconciliation -/

theorem recPair_mkRecord (fold : String → String) (sh th : String) (p : String × String) :
    recPair (mkRecord fold sh th p) = p := rfl

theorem parsedRecords_pair_inj (fold : String → String) (p : ParseOk) :
    ∀ r ∈ parsedRecords fold p, ∀ s ∈ parsedRecords fold p,
      recPair r = recPair s → r = s := by
  intro r hr s hs h
  rcases List.mem_map.mp hr with ⟨a, _, rfl⟩
  rcases List.mem_map.mp hs with ⟨b, _, rfl⟩
  rw [recPair_mkRecord, recPair_mkRecord] at h
  rw [h]

/-- **C2.** For every parsed corpus of `N` records of which `K` are exact
full-record duplicates of earlier records, reconciliation returns exactly
`N − K` records — a duplicate-free selection of the sorted frame that
keeps every original record value (each duplicate group is represented by
its first occurrence under the diacritic-insensitive sort order) — and
appends to the duplicates log, never overwriting prior log content, `K`
total occurrences grouped by distinct `(source_phrase, target_phrase)`
pair with the correct per-pair repeat counts. -/
theorem c2_dedup_correctness (fold : String → String) (p : ParseOk)
    (kc : List String) (banner : String) (fs : FS) :
    (sort_and_remove_duplicates (parsedRecords fold p) kc).records.length =
      (parsedRecords fold p).length - dupCount (parsedRecords fold p) ∧
    List.Sublist (sort_and_remove_duplicates (parsedRecords fold p) kc).records
      (sortRecs (parsedRecords fold p)) ∧
    (sort_and_remove_duplicates (parsedRecords fold p) kc).records.Nodup ∧
    (∀ r, r ∈ (sort_and_remove_duplicates (parsedRecords fold p) kc).records ↔
      r ∈ parsedRecords fold p) ∧
    (∀ pr n, (pr, n) ∈ (sort_and_remove_duplicates (parsedRecords fold p) kc).logAppend →
      n + 1 = countOcc pr ((parsedRecords fold p).map recPair) ∧ 1 ≤ n) ∧
    (∀ pr, 2 ≤ countOcc pr ((parsedRecords fold p).map recPair) →
      (pr, countOcc pr ((parsedRecords fold p).map recPair) - 1) ∈
        (sort_and_remove_duplicates (parsedRecords fold p) kc).logAppend) ∧
    ((sort_and_remove_duplicates (parsedRecords fold p) kc).logAppend.map Prod.fst).Nodup ∧
    ((sort_and_remove_duplicates (parsedRecords fold p) kc).logAppend.map Prod.snd).sum =
      dupCount (parsedRecords fold p) ∧
    (reconcileFS (parsedRecords fold p) kc banner fs).2.dupLog.take fs.dupLog.length =
      fs.dupLog := by
  obtain ⟨h1, h2, h3, h4, h5, h6, h7, h8⟩ :=
    sort_dedup_spec (parsedRecords fold p) kc (parsedRecords_pair_inj fold p)
  refine ⟨h1, h2, h3, h4, h5, h6, h7, h8, ?_⟩
  unfold reconcileFS
  by_cases hle : (sort_and_remove_duplicates (parsedRecords fold p) kc).logAppend.isEmpty
  · simp only [hle, if_pos]
    exact List.take_length fs.dupLog
  · simp only [hle]
    rw [if_neg (by simp [hle])]
    exact List.take_left fs.dupLog _

/-- A parsed corpus with one exact duplicate, used to instantiate C2. -/
def corpusDupP : ParseOk :=
  ⟨[("bague", "ring"), ("avoir", "to have"), ("avoir", "to have")],
   "French", "English", [">French: English"]⟩

theorem c2_dedup_correctness_witness :
    (sort_and_remove_duplicates (parsedRecords (fun s => s) corpusDupP)
      [">French: English"]).records.length =
      (parsedRecords (fun s => s) corpusDupP).length -
        dupCount (parsedRecords (fun s => s) corpusDupP) ∧
    (sort_and_remove_duplicates (parsedRecords (fun s => s) corpusDupP)
      [">French: English"]).records.length = 2 :=
  ⟨(c2_dedup_correctness (fun s => s) corpusDupP [">French: English"] "# banner"
      ⟨[], [], []⟩).1, by decide⟩

/-! ### Claim C7 — reconciliation is a no-op on sorted duplicate-free input -/

/-- **C7.** If the parsed record set is already duplicate-free and sorted
ascending by `source_phrase_no_diacritic`, reconciliation leaves the
corpus file untouched — no rewrite, no archive, no duplicates-log write —
and returns the records unchanged; hence a second run of the reconciler
on the already-reconciled set performs no file rewrite either. -/
theorem c7_reconcile_idempotent (l : List LanguageRecord) (kc : List String)
    (banner : String) (fs : FS) (hnd : l.Nodup) (hsorted : List.Sorted recLE l) :
    (sort_and_remove_duplicates l kc).rewritten = none ∧
    (sort_and_remove_duplicates l kc).logAppend = [] ∧
    (sort_and_remove_duplicates l kc).records = l ∧
    reconcileFS l kc banner fs = (l, fs) ∧
    (sort_and_remove_duplicates (sort_and_remove_duplicates l kc).records kc).rewritten =
      none := by
  have hsort : sortRecs l = l := List.Sorted.insertionSort_eq hsorted
  have hdc : markedDups ([] : List LanguageRecord) l = [] :=
    markedDups_eq_nil [] hnd (fun a _ => List.not_mem_nil a)
  have hmain : sort_and_remove_duplicates l kc =
      { records := l, logAppend := [], rewritten := none } := by
    simp [sort_and_remove_duplicates, dupCount, hsort, hdc]
  refine ⟨by rw [hmain], by rw [hmain], by rw [hmain], ?_, ?_⟩
  · unfold reconcileFS
    rw [hmain]
    rfl
  · rw [hmain]
    show (sort_and_remove_duplicates l kc).rewritten = none
    rw [hmain]

/-- Two sorted, distinct records used to instantiate C7. -/
def recAvoir : LanguageRecord :=
  ⟨"avoir", "to have", "French", "English", false, none, none, "to have", false, "avoir"⟩

/-- Second fixture record (diacritic-free key sorts after `avoir`). -/
def recEtre : LanguageRecord :=
  ⟨"être", "to be", "French", "English", false, none, none, "to be", false, "etre"⟩

theorem c7_reconcile_idempotent_witness :
    ([recAvoir, recEtre].Nodup ∧ List.Sorted recLE [recAvoir, recEtre]) ∧
    (sort_and_remove_duplicates [recAvoir, recEtre] [">French: English"]).rewritten = none ∧
    reconcileFS [recAvoir, recEtre] [">French: English"] "# banner" ⟨["x"], ["y"], []⟩ =
      ([recAvoir, recEtre], ⟨["x"], ["y"], []⟩) := by
  have h := c7_reconcile_idempotent [recAvoir, recEtre] [">French: English"] "# banner"
    ⟨["x"], ["y"], []⟩ (by decide) (by decide)
  exact ⟨⟨by decide, by decide⟩, h.1, h.2.2.2.1⟩

/-! ### Review-classification lemmas -/

theorem mem_mkCodes_TM (a b c d e : Bool) : "TM" ∈ mkCodes a b c d e ↔ a = true := by
  cases a <;> cases b <;> cases c <;> cases d <;> cases e <;> decide

theorem mem_mkCodes_NNF (a b c d e : Bool) : "NNF" ∈ mkCodes a b c d e ↔ c = true := by
  cases a <;> cases b <;> cases c <;> cases d <;> cases e <;> decide

theorem not_mem_mkCodes_GNF (a b c e : Bool) : "GNF" ∉ mkCodes a b c false e := by
  cases a <;> cases b <;> cases c <;> cases e <;> decide

theorem mkCodes_ne_nil_iff (a b c d e : Bool) :
    (a || b || c || d || e) = true ↔ mkCodes a b c d e ≠ [] := by
  cases a <;> cases b <;> cases c <;> cases d <;> cases e <;> decide

/-- Invert a successful `analyse_errors` run into its guard values. -/
theorem analyse_errors_some {te : Option String} {fr : Option Int} {isn : Bool}
    {ge : Option String} {igm : Option Bool} {lg : Option String} {sum : ErrSummary}
    (h : analyse_errors te fr isn ge igm lg = some sum) :
    ∃ tm, tmEval te fr = some tm ∧
      sum.codes = mkCodes tm (truthyStr te) (nnfFlag isn ge igm lg)
        (gnfFlag isn ge igm lg) (gmFlag isn ge igm) ∧
      sum.is_needs_review = (tm || truthyStr te || nnfFlag isn ge igm lg ||
        gnfFlag isn ge igm lg || gmFlag isn ge igm) := by
  cases htm : tmEval te fr with
  | none =>
    unfold analyse_errors at h
    rw [htm] at h
    exact absurd h (by simp)
  | some tm =>
    unfold analyse_errors at h
    rw [htm] at h
    have hsum := Option.some.inj h
    exact ⟨tm, rfl, by rw [← hsum], by rw [← hsum]⟩

/-- The text the loop sends to the translator: the noun for noun rows,
the full source phrase otherwise. -/
def recTransInput (r : LanguageRecord) : String :=
  if r.is_source_noun then r.source_noun.getD "" else r.source_phrase

theorem recTransRes_eq (svc : ExternalServices) (ck : Checker) (r : LanguageRecord) :
    recTransRes svc ck r =
      check_translation svc ck (recTransInput r) r.target_phrase_short := by
  unfold recTransRes recTransInput
  cases hr : r.is_source_noun <;> simp [hr]

/-! ### Claim C5 — review verdict and display flag -/

/-- **C5.** For every processed record, `is_needs_review` is true iff at
least one review code triggered (the codes list is exactly the triggered
subset of TM, TE, NNF, GNF, GM in that order), `is_ok_to_display` equals
`not is_needs_review OR is_ignore_translation_error`, and processing the
same record with `is_ignore_translation_error` set to true yields the
same row except that the flag is set and `is_ok_to_display` is true —
`is_needs_review` (and the review reason) unchanged. -/
theorem c5_review_flags (svc : ExternalServices) (ck : Checker) (r : LanguageRecord)
    (sum : ErrSummary) (row : ReportRow)
    (hs : recSummary svc ck r = some sum)
    (h : processRecord svc ck r = some row) :
    (row.is_needs_review = true ↔ sum.codes ≠ []) ∧
    row.is_ok_to_display = (!row.is_needs_review || r.is_ignore_translation_error) ∧
    processRecord svc ck { r with is_ignore_translation_error := true } =
      some { row with is_ignore_translation_error := true, is_ok_to_display := true } := by
  obtain ⟨tm, htm, hcodes, hneeds⟩ := analyse_errors_some hs
  unfold processRecord at h
  rw [hs] at h
  simp only [Option.map_some'] at h
  obtain rfl := (Option.some.inj h).symm
  refine ⟨?_, rfl, ?_⟩
  · show sum.is_needs_review = true ↔ sum.codes ≠ []
    rw [hneeds, hcodes]
    exact mkCodes_ne_nil_iff _ _ _ _ _
  · have hs' : recSummary svc ck { r with is_ignore_translation_error := true } = some sum := hs
    unfold processRecord
    rw [hs']
    simp only [Option.map_some', Option.some.injEq, Bool.or_true]
    rfl

/-- Fixture: a generic-pair checker obtained from the factory. -/
def ckGen : Checker := get_checker "German" "English"

/-- Fixture services: translator always succeeds, high fuzzy ratio, empty
lexicon. -/
def svcPlain : ExternalServices :=
  ⟨fun _ _ _ => .ok "hello", fun _ _ => 100, fun _ => none⟩

/-- Fixture: a noun record in a non-French-English corpus. -/
def recNounG : LanguageRecord :=
  ⟨"hund (m)", "dog", "German", "English", true, some "hund", some "m", "dog", false,
   "hund (m)"⟩

/-- The summary `analyse_errors` produces for `recNounG` under `svcPlain`. -/
def sumNNFC : ErrSummary :=
  ⟨true, ["NNF"], ["NNF: Gender validation not implemented for this language pair."]⟩

/-- The row `processRecord` produces for `recNounG` under `svcPlain`. -/
def rowNNFC : ReportRow :=
  ⟨"hund (m)", "dog", "dog", "German", "English", true, some "hund", some "m", false,
   "hund (m)", some "hello", some 100, none, none, true, "NNF",
   "NNF: Gender validation not implemented for this language pair.", false⟩

theorem c5_review_flags_witness :
    (recSummary svcPlain ckGen recNounG = some sumNNFC ∧
      processRecord svcPlain ckGen recNounG = some rowNNFC) ∧
    (rowNNFC.is_needs_review = true ↔ sumNNFC.codes ≠ []) ∧
    rowNNFC.is_ok_to_display =
      (!rowNNFC.is_needs_review || recNounG.is_ignore_translation_error) ∧
    processRecord svcPlain ckGen { recNounG with is_ignore_translation_error := true } =
      some { rowNNFC with is_ignore_translation_error := true, is_ok_to_display := true } :=
  ⟨⟨by decide, by decide⟩,
   c5_review_flags svcPlain ckGen recNounG sumNNFC rowNNFC (by decide) (by decide)⟩

/-! ### Claim C6 — fuzzy-ratio threshold for TM -/

/-- **C6.** For every record, the review code TM is present iff the
translation call succeeded and the fuzzy ratio is strictly below the
threshold 85; in particular a ratio of exactly 85 does not trigger TM
while 84 does (see the witness). -/
theorem c6_fuzzy_threshold (svc : ExternalServices) (ck : Checker) (r : LanguageRecord)
    (sum : ErrSummary) (hs : recSummary svc ck r = some sum) :
    "TM" ∈ sum.codes ↔
      ∃ t, svc.translate ck.source_language ck.target_language (recTransInput r) = .ok t ∧
        svc.fuzzer t r.target_phrase_short < fuzzyThreshold := by
  obtain ⟨tm, htm, hcodes, _⟩ := analyse_errors_some hs
  rw [recTransRes_eq] at htm
  cases htr : svc.translate ck.source_language ck.target_language (recTransInput r) with
  | ok t =>
    have hres : check_translation svc ck (recTransInput r) r.target_phrase_short =
        ⟨some t, some (svc.fuzzer t r.target_phrase_short), none⟩ := by
      unfold check_translation
      rw [htr]
    rw [hres] at htm
    have htm' : tm = decide (svc.fuzzer t r.target_phrase_short < fuzzyThreshold) :=
      (Option.some.inj htm).symm
    rw [hcodes, mem_mkCodes_TM, htm']
    constructor
    · intro hd
      exact ⟨t, rfl, of_decide_eq_true hd⟩
    · rintro ⟨t', ht', hlt⟩
      obtain rfl : t = t' := Except.ok.inj ht'
      exact decide_eq_true hlt
  | error e =>
    have hres : check_translation svc ck (recTransInput r) r.target_phrase_short =
        ⟨none, none, some e⟩ := by
      unfold check_translation
      rw [htr]
    rw [hres] at htm
    by_cases he : e = ""
    · subst he
      unfold tmEval at htm
      simp [truthyStr] at htm
    · have htm' : tm = false := by
        unfold tmEval at htm
        rw [if_pos (by simp [truthyStr, he])] at htm
        exact (Option.some.inj htm).symm
      rw [hcodes, htm', mem_mkCodes_TM]
      constructor
      · intro hfalse
        exact absurd hfalse (by simp)
      · rintro ⟨t', ht', _⟩
        exact absurd ht' (by simp)

/-- Fixture services whose fuzzy ratio is exactly the threshold. -/
def svcF85 : ExternalServices :=
  ⟨fun _ _ _ => .ok "hi", fun _ _ => 85, fun _ => none⟩

/-- Fixture services whose fuzzy ratio is one below the threshold. -/
def svcF84 : ExternalServices :=
  ⟨fun _ _ _ => .ok "hi", fun _ _ => 84, fun _ => none⟩

/-- Fixture: a plain (non-noun) record. -/
def recNN : LanguageRecord :=
  ⟨"avoir", "to have", "German", "English", false, none, none, "to have", false, "avoir"⟩

/-- Summary at fuzzy ratio 84: TM triggers. -/
def sum84C : ErrSummary :=
  ⟨true, ["TM"], ["TM: Translation Mismatch (fuzzy ratio < threshold) - 84"]⟩

/-- Summary at fuzzy ratio 85: nothing triggers. -/
def sum85C : ErrSummary := ⟨false, [], []⟩

theorem c6_fuzzy_threshold_witness :
    (recSummary svcF84 ckGen recNN = some sum84C ∧ "TM" ∈ sum84C.codes) ∧
    (recSummary svcF85 ckGen recNN = some sum85C ∧ "TM" ∉ sum85C.codes) := by
  have h84 : recSummary svcF84 ckGen recNN = some sum84C := by decide
  have h85 : recSummary svcF85 ckGen recNN = some sum85C := by decide
  refine ⟨⟨h84, ?_⟩, ⟨h85, ?_⟩⟩
  · exact (c6_fuzzy_threshold svcF84 ckGen recNN sum84C h84).mpr ⟨"hi", rfl, by decide⟩
  · intro hmem
    rcases (c6_fuzzy_threshold svcF85 ckGen recNN sum85C h85).mp hmem with ⟨t, ht, hlt⟩
    cases ht
    exact absurd hlt (by decide)

/-! ### Claim C10 — non-French-English pairs get the generic checker -/

/-- **C10.** For any language pair other than French→English (compared
case-insensitively) the factory returns the generic checker, whose gender
validation always reports a non-empty error with `is_gender_match` and
`lexical_gender` both absent; consequently every noun record in such a
corpus gets review code NNF and `is_needs_review` true, without any
lexicon lookup. -/
theorem c10_generic_checker_nnf (src tgt : String)
    (hne : ¬(pyLower src = "french" ∧ pyLower tgt = "english")) :
    (get_checker src tgt).kind = .generic ∧
    (∀ svc noun g, validate_gender svc (get_checker src tgt) noun g =
      ⟨none, none, some "Gender validation not implemented for this language pair."⟩) ∧
    (∀ svc r sum, r.is_source_noun = true →
      recSummary svc (get_checker src tgt) r = some sum →
      "NNF" ∈ sum.codes ∧ sum.is_needs_review = true) := by
  have hck : (get_checker src tgt).kind = .generic := by
    unfold get_checker
    rw [if_neg hne]
  refine ⟨hck, ?_, ?_⟩
  · intro svc noun g
    unfold validate_gender
    rw [hck]
  · intro svc r sum hr hs
    obtain ⟨tm, _, hcodes, hneeds⟩ := analyse_errors_some hs
    have hg : recGenderRes svc (get_checker src tgt) r =
        some ⟨none, none, some "Gender validation not implemented for this language pair."⟩ := by
      unfold recGenderRes
      rw [hr, if_pos rfl]
      unfold validate_gender
      rw [hck]
    rw [hg] at hcodes hneeds
    have hnnf : nnfFlag r.is_source_noun
        (some "Gender validation not implemented for this language pair.") none none = true := by
      rw [hr]; decide
    have hgnf : gnfFlag r.is_source_noun
        (some "Gender validation not implemented for this language pair.") none none = false := by
      rw [hr]; decide
    constructor
    · rw [hcodes]
      rw [mem_mkCodes_NNF]
      exact hnnf
    · rw [hneeds, hnnf]
      simp

theorem c10_generic_checker_nnf_witness :
    ¬(pyLower "German" = "french" ∧ pyLower "English" = "english") ∧
    (get_checker "German" "English").kind = .generic ∧
    recSummary svcPlain (get_checker "German" "English") recNounG = some sumNNFC ∧
    "NNF" ∈ sumNNFC.codes := by
  have hne : ¬(pyLower "German" = "french" ∧ pyLower "English" = "english") := by decide
  have h := c10_generic_checker_nnf "German" "English" hne
  have hs : recSummary svcPlain (get_checker "German" "English") recNounG = some sumNNFC := by
    decide
  exact ⟨hne, h.1, hs, (h.2.2 svcPlain recNounG sumNNFC rfl hs).1⟩

/-! ### Claim C1 — indeterminate gender yields NNF, never GNF -/

/-- The four result shapes of `FrenchEnglishChecker.validate_gender`:
not-found, not-determined, match, mismatch.  In the two error shapes
`lexical_gender` is absent; in the two compare shapes `is_gender_match`
is present. -/
theorem fe_shape (svc : ExternalServices) (noun : String) (g : Option String) :
    fe_validate_gender svc noun g =
      ⟨none, none, some ("noun \x27" ++ noun ++
        "\x27 not in lexical database, check for diacritics")⟩ ∨
    fe_validate_gender svc noun g = ⟨none, none, some genderNotDeterminedMsg⟩ ∨
    (∃ lex, g = some lex ∧ fe_validate_gender svc noun g = ⟨some true, some lex, none⟩) ∨
    (∃ lex, g ≠ some lex ∧ fe_validate_gender svc noun g =
      ⟨some false, some lex, some ("gender mismatch: laxical gender \x27" ++ lex ++
        "\x27 does not match provided gender \x27" ++ pyShow g ++ "\x27")⟩) := by
  cases hlx : svc.lexicon noun with
  | none =>
    left
    simp [fe_validate_gender, hlx]
  | some ps =>
    by_cases hps : ps = []
    · subst hps
      left
      simp [fe_validate_gender, hlx]
    · have hcond : ¬(some ps = (none : Option (List (String × String))) ∨
          some ps = some ([] : List (String × String))) := by
        rintro (hc | hc)
        · exact Option.noConfusion hc
        · exact hps (Option.some.inj hc)
      cases hgf : genderFromPairs (some ps) with
      | none =>
        right; left
        simp [fe_validate_gender, hlx, hcond, hgf, hps]
      | some lex =>
        by_cases hg : g = some lex
        · right; right; left
          refine ⟨lex, hg, ?_⟩
          simp [fe_validate_gender, hlx, hcond, hgf, hg, hps]
        · right; right; right
          refine ⟨lex, hg, ?_⟩
          simp [fe_validate_gender, hlx, hcond, hgf, hg, hps]

/-- Whenever `validate_gender` leaves `is_gender_match` absent it also
leaves `lexical_gender` absent (both checkers, all branches). -/
theorem validate_gender_lg_none (svc : ExternalServices) (ck : Checker)
    (noun : String) (g : Option String)
    (h : (validate_gender svc ck noun g).is_gender_match = none) :
    (validate_gender svc ck noun g).lexical_gender = none := by
  unfold validate_gender at h ⊢
  cases hk : ck.kind with
  | generic => rfl
  | frenchEnglish =>
    rw [hk] at h
    show (fe_validate_gender svc noun g).lexical_gender = none
    have h' : (fe_validate_gender svc noun g).is_gender_match = none := h
    rcases fe_shape svc noun g with h1 | h2 | ⟨lex, _, h3⟩ | ⟨lex, _, h4⟩
    · rw [h1]
    · rw [h2]
    · rw [h3] at h'; exact absurd h' (by simp)
    · rw [h4] at h'; exact absurd h' (by simp)

/-- The GNF guard can never fire: its conjuncts `is_gender_match is None`
and truthy `lexical_gender` exclude each other for every checker result. -/
theorem gnf_never (svc : ExternalServices) (ck : Checker) (r : LanguageRecord) :
    gnfFlag r.is_source_noun
      (match recGenderRes svc ck r with | some gr => gr.gender_error | none => none)
      (match recGenderRes svc ck r with | some gr => gr.is_gender_match | none => none)
      (match recGenderRes svc ck r with | some gr => gr.lexical_gender | none => none) =
      false := by
  cases hg : recGenderRes svc ck r with
  | none => simp [gnfFlag, truthyStr]
  | some gr =>
    have hgr : gr = validate_gender svc ck (r.source_noun.getD "") r.source_noun_gender := by
      unfold recGenderRes at hg
      by_cases hrsn : r.is_source_noun = true
      · rw [if_pos hrsn] at hg
        exact (Option.some.inj hg).symm
      · rw [if_neg hrsn] at hg
        exact absurd hg (by simp)
    cases higm : gr.is_gender_match with
    | some b => simp [gnfFlag, higm]
    | none =>
      have hlg : gr.lexical_gender = none := by
        rw [hgr]
        exact validate_gender_lg_none svc ck _ _ (by rw [← hgr]; exact higm)
      simp [gnfFlag, higm, hlg, truthyStr]

/-- **C1 (amended).** For a noun found in the lexicon whose gender cannot
be determined, the French-English checker reports the (stray-quoted)
"gender could not be determined" error with `lexical_gender` absent, and
the record's review reason carries the code NNF — not GNF: because
`lexical_gender` is absent in that branch, the GNF condition (which
requires `lexical_gender` present) can never fire for any checker. -/
theorem c1_gender_indeterminate :
    (∀ (svc : ExternalServices) (noun : String) (g : Option String)
      (ps : List (String × String)), svc.lexicon noun = some ps → ps ≠ [] →
      genderFromPairs (some ps) = none →
      fe_validate_gender svc noun g = ⟨none, none, some genderNotDeterminedMsg⟩) ∧
    (∀ (svc : ExternalServices) (ck : Checker) (r : LanguageRecord) (sum : ErrSummary),
      recSummary svc ck r = some sum → "GNF" ∉ sum.codes) ∧
    (∀ (svc : ExternalServices) (r : LanguageRecord) (sum : ErrSummary),
      r.is_source_noun = true →
      svc.lexicon (r.source_noun.getD "") ≠ none →
      svc.lexicon (r.source_noun.getD "") ≠ some [] →
      genderFromPairs (svc.lexicon (r.source_noun.getD "")) = none →
      recSummary svc (get_checker "French" "English") r = some sum →
      "NNF" ∈ sum.codes ∧ sum.is_needs_review = true) := by
  refine ⟨?_, ?_, ?_⟩
  · intro svc noun g ps hlex hne hgf
    have hcond : ¬(some ps = (none : Option (List (String × String))) ∨
        some ps = some ([] : List (String × String))) := by
      rintro (hc | hc)
      · exact Option.noConfusion hc
      · exact hne (Option.some.inj hc)
    unfold fe_validate_gender
    rw [hlex, if_neg hcond, hgf]
  · intro svc ck r sum hs
    obtain ⟨tm, _, hcodes, _⟩ := analyse_errors_some hs
    rw [hcodes, gnf_never]
    exact not_mem_mkCodes_GNF _ _ _ _
  · intro svc r sum hrsn hlex1 hlex2 hgf hs
    obtain ⟨tm, _, hcodes, hneeds⟩ := analyse_errors_some hs
    have hkind : (get_checker "French" "English").kind = .frenchEnglish := rfl
    have hval : validate_gender svc (get_checker "French" "English")
        (r.source_noun.getD "") r.source_noun_gender =
        ⟨none, none, some genderNotDeterminedMsg⟩ := by
      cases hlx : svc.lexicon (r.source_noun.getD "") with
      | none => exact absurd hlx hlex1
      | some ps =>
        have hne : ps ≠ [] := by
          rintro rfl
          exact hlex2 hlx
        have hgf' : genderFromPairs (some ps) = none := by rw [← hlx]; exact hgf
        have hcond : ¬(some ps = (none : Option (List (String × String))) ∨
            some ps = some ([] : List (String × String))) := by
          rintro (hc | hc)
          · exact Option.noConfusion hc
          · exact hne (Option.some.inj hc)
        unfold validate_gender
        rw [hkind]
        unfold fe_validate_gender
        rw [hlx, if_neg hcond, hgf']
    have hg : recGenderRes svc (get_checker "French" "English") r =
        some ⟨none, none, some genderNotDeterminedMsg⟩ := by
      unfold recGenderRes
      rw [if_pos hrsn, hval]
    rw [hg] at hcodes hneeds
    have hnnf : nnfFlag r.is_source_noun (some genderNotDeterminedMsg) none none = true := by
      rw [hrsn]; decide
    have hgnf : gnfFlag r.is_source_noun (some genderNotDeterminedMsg) none none = false := by
      rw [hrsn]; decide
    constructor
    · rw [hcodes, mem_mkCodes_NNF]
      exact hnnf
    · rw [hneeds, hnnf]
      simp

/-- Fixture services: the lexicon knows `souris` with two distinct
non-empty genders across grammatical categories. -/
def svcSouris : ExternalServices :=
  ⟨fun _ _ _ => .ok "mouse", fun _ _ => 100,
   fun w => if w = "souris" then some [("ADJ", "m"), ("NOM", "f")] else none⟩

/-- Fixture: the French-English checker from the factory. -/
def feCk : Checker := get_checker "French" "English"

/-- Fixture: a noun record whose lexicon entry is gender-ambiguous. -/
def recSouris : LanguageRecord :=
  ⟨"souris (f)", "mouse", "French", "English", true, some "souris", some "f", "mouse",
   false, "souris (f)"⟩

/-- C1 as frozen is false on this input: the "gender could not be
determined" error is reported with `lexical_gender` absent, yet the
review reason is `NNF`, not `GNF`. -/
theorem c1_counterexample :
    recSouris.is_source_noun = true ∧
    svcSouris.lexicon "souris" = some [("ADJ", "m"), ("NOM", "f")] ∧
    genderFromPairs (svcSouris.lexicon "souris") = none ∧
    fe_validate_gender svcSouris "souris" (some "f") =
      ⟨none, none, some genderNotDeterminedMsg⟩ ∧
    (recSummary svcSouris feCk recSouris).map ErrSummary.codes = some ["NNF"] ∧
    (processRecord svcSouris feCk recSouris).map ReportRow.review_reason = some "NNF" ∧
    "GNF" ∉ ["NNF"] := by
  decide

/-- The summary for the `souris` fixture. -/
def sumSourisC : ErrSummary :=
  ⟨true, ["NNF"], ["NNF: " ++ genderNotDeterminedMsg]⟩

theorem c1_gender_indeterminate_witness :
    (svcSouris.lexicon "souris" = some [("ADJ", "m"), ("NOM", "f")] ∧
      ([("ADJ", "m"), ("NOM", "f")] : List (String × String)) ≠ [] ∧
      genderFromPairs (some [("ADJ", "m"), ("NOM", "f")]) = none ∧
      recSouris.is_source_noun = true ∧
      recSummary svcSouris (get_checker "French" "English") recSouris = some sumSourisC) ∧
    fe_validate_gender svcSouris "souris" (some "f") =
      ⟨none, none, some genderNotDeterminedMsg⟩ ∧
    "GNF" ∉ sumSourisC.codes ∧
    "NNF" ∈ sumSourisC.codes ∧ sumSourisC.is_needs_review = true := by
  have hs : recSummary svcSouris (get_checker "French" "English") recSouris =
      some sumSourisC := by decide
  refine ⟨⟨by decide, by decide, by decide, by decide, hs⟩, ?_, ?_, ?_⟩
  · exact c1_gender_indeterminate.1 svcSouris "souris" (some "f")
      [("ADJ", "m"), ("NOM", "f")] (by decide) (by decide) (by decide)
  · exact c1_gender_indeterminate.2.1 svcSouris (get_checker "French" "English")
      recSouris sumSourisC hs
  · exact c1_gender_indeterminate.2.2 svcSouris recSouris sumSourisC (by decide)
      (by decide) (by decide) (by decide) hs

/-! ### Claim C4 — gender fields of the report -/

/-- When the lexicon determines no gender (miss, empty item list or
ambiguous genders), `validate_gender` leaves `is_gender_match` absent for
either checker. -/
theorem validate_igm_none_of_gf_none (svc : ExternalServices) (ck : Checker)
    (noun : String) (g : Option String)
    (hgf : genderFromPairs (svc.lexicon noun) = none) :
    (validate_gender svc ck noun g).is_gender_match = none := by
  unfold validate_gender
  cases hk : ck.kind with
  | generic => rfl
  | frenchEnglish =>
    show (fe_validate_gender svc noun g).is_gender_match = none
    cases hlx : svc.lexicon noun with
    | none => simp [fe_validate_gender, hlx]
    | some ps =>
      by_cases hps : ps = []
      · subst hps
        simp [fe_validate_gender, hlx]
      · have hcond : ¬(some ps = (none : Option (List (String × String))) ∨
            some ps = some ([] : List (String × String))) := by
          rintro (hc | hc)
          · exact Option.noConfusion hc
          · exact hps (Option.some.inj hc)
        rw [hlx] at hgf
        simp [fe_validate_gender, hlx, hcond, hgf, hps]

/-- **C4 (amended).** In the per-record results the verification engine
synthesizes, a record with `is_source_noun` false has `is_gender_match`,
`lexical_gender` and the gender error all absent; a noun record whose
gender the lexicon does not determine has `is_gender_match` absent; and
when `is_gender_match` is present it is true iff `lexical_gender` equals
`source_noun_gender`.  However, before the report is persisted the
`is_gender_match` column is cast with `astype(bool)`, which coerces
absent to `false` — in the persisted report the field is never absent. -/
theorem c4_gender_fields (svc : ExternalServices) (ck : Checker) (r : LanguageRecord)
    (row : ReportRow) (h : processRecord svc ck r = some row) :
    (r.is_source_noun = false → row.is_gender_match = none ∧ row.lexical_gender = none ∧
      recGenderRes svc ck r = none) ∧
    (∀ b, row.is_gender_match = some b → ∃ g, row.lexical_gender = some g ∧
      (b = true ↔ r.source_noun_gender = some g)) ∧
    (r.is_source_noun = true → genderFromPairs (svc.lexicon (r.source_noun.getD "")) = none →
      row.is_gender_match = none) ∧
    (applyAstype row).is_gender_match = some (row.is_gender_match.getD false) := by
  cases hs : recSummary svc ck r with
  | none =>
    unfold processRecord at h
    rw [hs] at h
    exact absurd h (by simp)
  | some sum =>
    unfold processRecord at h
    rw [hs] at h
    simp only [Option.map_some'] at h
    obtain rfl := (Option.some.inj h).symm
    refine ⟨?_, ?_, ?_, rfl⟩
    · intro hrsn
      have hg : recGenderRes svc ck r = none := by
        simp [recGenderRes, hrsn]
      refine ⟨?_, ?_, hg⟩
      · show (match recGenderRes svc ck r with
          | some gr => gr.is_gender_match | none => none) = none
        rw [hg]
      · show (match recGenderRes svc ck r with
          | some gr => gr.lexical_gender | none => none) = none
        rw [hg]
    · intro b hb
      replace hb : (match recGenderRes svc ck r with
          | some gr => gr.is_gender_match | none => none) = some b := hb
      cases hgr : recGenderRes svc ck r with
      | none => rw [hgr] at hb; exact absurd hb (by simp)
      | some gr =>
        rw [hgr] at hb
        have hgrv : gr = validate_gender svc ck (r.source_noun.getD "")
            r.source_noun_gender := by
          unfold recGenderRes at hgr
          by_cases hrsn : r.is_source_noun = true
          · rw [if_pos hrsn] at hgr
            exact (Option.some.inj hgr).symm
          · rw [if_neg hrsn] at hgr
            exact absurd hgr (by simp)
        cases hk : ck.kind with
        | generic =>
          rw [hgrv] at hb
          unfold validate_gender at hb
          rw [hk] at hb
          exact absurd hb (by simp)
        | frenchEnglish =>
          have hgr' : gr = fe_validate_gender svc (r.source_noun.getD "")
              r.source_noun_gender := by
            rw [hgrv]
            unfold validate_gender
            rw [hk]
          rcases fe_shape svc (r.source_noun.getD "") r.source_noun_gender with
            h1 | h2 | ⟨lex, hgeq, h3⟩ | ⟨lex, hgne, h4⟩
          · rw [hgr', h1] at hb; exact absurd hb (by simp)
          · rw [hgr', h2] at hb; exact absurd hb (by simp)
          · refine ⟨lex, ?_, ?_⟩
            · show gr.lexical_gender = some lex
              rw [hgr', h3]
            · rw [hgr', h3] at hb
              have hbtrue : b = true := (Option.some.inj hb).symm
              simp [hbtrue, hgeq]
          · refine ⟨lex, ?_, ?_⟩
            · show gr.lexical_gender = some lex
              rw [hgr', h4]
            · rw [hgr', h4] at hb
              have hbfalse : b = false := (Option.some.inj hb).symm
              simp [hbfalse]
              exact hgne
    · intro hrsn hgf
      have hg : recGenderRes svc ck r = some (validate_gender svc ck
          (r.source_noun.getD "") r.source_noun_gender) := by
        unfold recGenderRes
        rw [if_pos hrsn]
      show (match recGenderRes svc ck r with
        | some gr => gr.is_gender_match | none => none) = none
      rw [hg]
      exact validate_igm_none_of_gf_none svc ck _ _ hgf

/-- The row `processRecord` produces for the plain record `recNN` under
`svcPlain` (high fuzzy ratio, nothing triggers). -/
def rowNNC : ReportRow :=
  ⟨"avoir", "to have", "to have", "German", "English", false, none, none, false, "avoir",
   some "hello", some 100, none, none, false, "", "", true⟩

/-- C4 as frozen is false of the persisted report: after the
`astype(bool)` cast, the non-noun record's `is_gender_match` is the
boolean `false`, not absent. -/
theorem c4_counterexample :
    recNN.is_source_noun = false ∧
    (processRecord svcPlain ckGen recNN).map ReportRow.is_gender_match = some none ∧
    (processRecord svcPlain ckGen recNN).map (fun row => (applyAstype row).is_gender_match) =
      some (some false) := by
  decide

theorem c4_gender_fields_witness :
    processRecord svcPlain ckGen recNN = some rowNNC ∧
    (rowNNC.is_gender_match = none ∧ rowNNC.lexical_gender = none ∧
      recGenderRes svcPlain ckGen recNN = none) ∧
    (applyAstype rowNNC).is_gender_match = some false := by
  have h : processRecord svcPlain ckGen recNN = some rowNNC := by decide
  have hc := c4_gender_fields svcPlain ckGen recNN rowNNC h
  exact ⟨h, hc.1 rfl, by decide⟩

/-! ### Claim C8 — schema validation -/

theorem sortStrings_perm (l : List String) : (sortStrings l).Perm l :=
  List.perm_insertionSort strLE l

theorem sortStrings_sorted (l : List String) : List.Sorted strLE (sortStrings l) :=
  List.sorted_insertionSort strLE l

theorem sortStrings_eq_iff {l l' : List String} (h : l.Nodup) (h' : l'.Nodup) :
    sortStrings l = sortStrings l' ↔ l.toFinset = l'.toFinset := by
  constructor
  · intro he
    have h1 : l.toFinset = (sortStrings l).toFinset :=
      (perm_toFinset_eq (sortStrings_perm l)).symm
    rw [h1, he, perm_toFinset_eq (sortStrings_perm l')]
  · intro he
    have hperm : (sortStrings l).Perm (sortStrings l') :=
      ((sortStrings_perm l).trans (List.perm_of_nodup_nodup_toFinset_eq h h' he)).trans
        (sortStrings_perm l').symm
    exact List.eq_of_perm_of_sorted hperm (sortStrings_sorted l) (sortStrings_sorted l')

theorem checkDtypes_ok_iff (df : List (String × String)) (schema : List (String × PyType)) :
    checkDtypes df schema = .ok () ↔
      ∀ ct ∈ schema, (df.lookup ct.1).getD "" = expectedDtypeName ct.2 := by
  induction schema with
  | nil => simp [checkDtypes]
  | cons hd tl ih =>
    obtain ⟨c, t⟩ := hd
    by_cases hc : (df.lookup c).getD "" = expectedDtypeName t
    · rw [checkDtypes, if_pos hc, ih]
      simp [hc]
    · rw [checkDtypes, if_neg hc]
      constructor
      · intro hcontra
        exact absurd hcontra (by simp)
      · intro hall
        exact absurd (hall (c, t) (List.mem_cons_self _ _)) hc

theorem checkDtypes_no_fieldset (df : List (String × String))
    (schema : List (String × PyType)) (e a : List String) :
    checkDtypes df schema ≠ .error (.fieldSetMismatch e a) := by
  induction schema with
  | nil => simp [checkDtypes]
  | cons hd tl ih =>
    obtain ⟨c, t⟩ := hd
    by_cases hc : (df.lookup c).getD "" = expectedDtypeName t
    · rw [checkDtypes, if_pos hc]
      exact ih
    · rw [checkDtypes, if_neg hc]
      simp

/-- **C8.** Schema validation accepts a table iff its field-name set
equals the schema's field set (independently of column order) and every
column's dtype equals the dtype expected for its declared type; a
field-set mismatch is raised as a `ValueError` carrying both sorted
column lists (a constructor distinct from the field-type `TypeError`);
and loading a persisted report table that is missing a required column
fails with a field-set mismatch whose expected column list names the
missing column. -/
theorem c8_schema_validation :
    (∀ (df : List (String × String)) (schema : List (String × PyType)),
      (df.map Prod.fst).Nodup → (schema.map Prod.fst).Nodup →
      (validate_dataframe_schema df schema = .ok () ↔
        ((df.map Prod.fst).toFinset = (schema.map Prod.fst).toFinset ∧
          ∀ ct ∈ schema, (df.lookup ct.1).getD "" = expectedDtypeName ct.2))) ∧
    (∀ (df : List (String × String)) (schema : List (String × PyType)) (e a : List String),
      validate_dataframe_schema df schema = .error (.fieldSetMismatch e a) →
      e = sortStrings (schema.map Prod.fst) ∧ a = sortStrings (df.map Prod.fst) ∧ e ≠ a) ∧
    (∀ (e a : List String) (c edt adt : String),
      SchemaError.fieldSetMismatch e a ≠ SchemaError.fieldTypeMismatch c edt adt) ∧
    (∀ (df : List (String × String)) (c : String) (t : PyType),
      (c, t) ∈ validationReportDataSchema → c ∉ df.map Prod.fst →
      load_report_data_df (.ok df) = .error (.schemaError (.fieldSetMismatch
        (sortStrings (validationReportDataSchema.map Prod.fst))
        (sortStrings (df.map Prod.fst)))) ∧
      c ∈ sortStrings (validationReportDataSchema.map Prod.fst) ∧
      c ∉ sortStrings (df.map Prod.fst)) := by
  refine ⟨?_, ?_, ?_, ?_⟩
  · intro df schema hdf hsch
    unfold validate_dataframe_schema
    by_cases he : sortStrings (df.map Prod.fst) ≠ sortStrings (schema.map Prod.fst)
    · rw [if_pos he]
      constructor
      · intro hcontra
        exact absurd hcontra (by simp)
      · rintro ⟨hfs, _⟩
        exact absurd ((sortStrings_eq_iff hdf hsch).mpr hfs) he
    · rw [if_neg he]
      rw [checkDtypes_ok_iff]
      exact ⟨fun hall => ⟨(sortStrings_eq_iff hdf hsch).mp (not_not.mp he), hall⟩,
        fun hh => hh.2⟩
  · intro df schema e a hval
    unfold validate_dataframe_schema at hval
    by_cases he : sortStrings (df.map Prod.fst) ≠ sortStrings (schema.map Prod.fst)
    · rw [if_pos he] at hval
      have hinj := Except.error.inj hval
      obtain ⟨rfl, rfl⟩ : sortStrings (schema.map Prod.fst) = e ∧
          sortStrings (df.map Prod.fst) = a := by
        cases hinj
        exact ⟨rfl, rfl⟩
      exact ⟨rfl, rfl, fun hc => he hc.symm⟩
    · rw [if_neg he] at hval
      exact absurd hval (checkDtypes_no_fieldset df schema e a)
  · intro e a c edt adt hc
    exact SchemaError.noConfusion hc
  · intro df c t hmem hnot
    have hcs : c ∈ validationReportDataSchema.map Prod.fst :=
      List.mem_map_of_mem Prod.fst hmem
    have hcsort : c ∈ sortStrings (validationReportDataSchema.map Prod.fst) :=
      ((sortStrings_perm _).mem_iff).mpr hcs
    have hasort : c ∉ sortStrings (df.map Prod.fst) := by
      intro hcon
      exact hnot (((sortStrings_perm _).mem_iff).mp hcon)
    have hne : sortStrings (df.map Prod.fst) ≠
        sortStrings (validationReportDataSchema.map Prod.fst) := by
      intro hEq
      rw [← hEq] at hcsort
      exact hasort hcsort
    have hval : validate_dataframe_schema df validationReportDataSchema =
        .error (.fieldSetMismatch (sortStrings (validationReportDataSchema.map Prod.fst))
          (sortStrings (df.map Prod.fst))) := by
      unfold validate_dataframe_schema
      rw [if_pos hne]
    refine ⟨?_, hcsort, hasort⟩
    simp only [load_report_data_df, hval]

/-- A persisted report table with every column except `is_gender_match`,
all dtypes as declared. -/
def dfMissingC : List (String × String) :=
  (validationReportDataSchema.filter (fun ct => ct.1 ≠ "is_gender_match")).map
    (fun ct => (ct.1, expectedDtypeName ct.2))

/-- A well-formed report table. -/
def dfGoodC : List (String × String) :=
  validationReportDataSchema.map (fun ct => (ct.1, expectedDtypeName ct.2))

theorem c8_schema_validation_witness :
    ((("is_gender_match", PyType.boolT) ∈ validationReportDataSchema ∧
      "is_gender_match" ∉ dfMissingC.map Prod.fst) ∧
    load_report_data_df (.ok dfMissingC) = .error (.schemaError (.fieldSetMismatch
      (sortStrings (validationReportDataSchema.map Prod.fst))
      (sortStrings (dfMissingC.map Prod.fst)))) ∧
    "is_gender_match" ∈ sortStrings (validationReportDataSchema.map Prod.fst) ∧
    "is_gender_match" ∉ sortStrings (dfMissingC.map Prod.fst)) ∧
    ((dfGoodC.map Prod.fst).Nodup ∧ (validationReportDataSchema.map Prod.fst).Nodup ∧
      validate_dataframe_schema dfGoodC validationReportDataSchema = .ok ()) := by
  have h4 := c8_schema_validation.2.2.2 dfMissingC "is_gender_match" PyType.boolT
    (by decide) (by decide)
  have hgood : validate_dataframe_schema dfGoodC validationReportDataSchema = .ok () :=
    (c8_schema_validation.1 dfGoodC validationReportDataSchema (by decide) (by decide)).mpr
      ⟨by decide, by decide⟩
  exact ⟨⟨⟨by decide, by decide⟩, h4⟩, by decide, by decide, hgood⟩

/-! ### Claim C3 — malformed entry lines -/

/-- `main` of `convert_lang_csv_to_df.py` up to persistence: parse the
corpus from the file system, derive the records and reconcile.  A parse
`ValueError` is raised before any file is opened for writing. -/
def convertRun (fold : String → String) (banner : String) (fs : FS) :
    Except ParseError (List LanguageRecord × FS) :=
  match parseCsv fs.corpus with
  | .error e => .error e
  | .ok p => .ok (reconcileFS (parsedRecords fold p) p.key_comment banner fs)

/-- The file system after a conversion attempt (unchanged when the parse
failed). -/
def convertFS (fold : String → String) (banner : String) (fs : FS) : FS :=
  match convertRun fold banner fs with
  | .error _ => fs
  | .ok (_, fs2) => fs2

/-- The structural condition of the `unexpected empty source or target
value` check: one side of the first `': '` separator is empty after
`rstrip`. -/
def entryEmptySide (line : String) : Prop :=
  (pyPartition (pyRstrip line) ": ").1 = "" ∨ (pyPartition (pyRstrip line) ": ").2.2 = ""

instance (line : String) : Decidable (entryEmptySide line) := by
  unfold entryEmptySide
  infer_instance

theorem parseLines_empty_error (lines : List String) (idx : Nat) (st : ParseSt) (j : Nat)
    (h : parseLines lines idx st = .error (.emptySourceOrTarget j)) :
    idx ≤ j ∧ ∃ line, lines[j - idx]? = some line ∧
      ¬(pyStartsWith line "#" || isBlankStr line) = true ∧
      ¬pyStartsWith line ">" = true ∧ entryEmptySide line := by
  induction lines generalizing idx st with
  | nil =>
    rw [parseLines] at h
    exact absurd h (by simp)
  | cons line rest ih =>
    rw [parseLines] at h
    by_cases h1 : (pyStartsWith line "#" || isBlankStr line) = true
    · rw [if_pos h1] at h
      obtain ⟨hle, line', hl', hp1, hp2, hp3⟩ := ih (idx + 1) _ h
      refine ⟨by omega, line', ?_, hp1, hp2, hp3⟩
      have hj : j - idx = (j - (idx + 1)) + 1 := by omega
      rw [hj]
      simpa using hl'
    · rw [if_neg h1] at h
      by_cases h2 : pyStartsWith line ">" = true
      · rw [if_pos h2] at h
        by_cases h3 : truthyStr st.src_hdr = true
        · rw [if_pos h3] at h
          exact absurd h (by simp)
        · rw [if_neg h3] at h
          obtain ⟨hle, line', hl', hp1, hp2, hp3⟩ := ih (idx + 1) _ h
          refine ⟨by omega, line', ?_, hp1, hp2, hp3⟩
          have hj : j - idx = (j - (idx + 1)) + 1 := by omega
          rw [hj]
          simpa using hl'
      · rw [if_neg h2] at h
        by_cases h4 : (pyPartition (pyRstrip line) ": ").1 = "" ∨
            (pyPartition (pyRstrip line) ": ").2.2 = ""
        · rw [if_pos h4] at h
          obtain rfl : idx = j :=
            ParseError.emptySourceOrTarget.inj (Except.error.inj h)
          refine ⟨le_refl idx, line, ?_, h1, h2, h4⟩
          simp [Nat.sub_self]
        · rw [if_neg h4] at h
          by_cases h5 : bracketCaptures (pyPartition (pyRstrip line) ": ").1 ≠ [] ∧
              "m" ∉ bracketCaptures (pyPartition (pyRstrip line) ": ").1 ∧
              "f" ∉ bracketCaptures (pyPartition (pyRstrip line) ": ").1
          · rw [if_pos h5] at h
            exact absurd h (by simp)
          · rw [if_neg h5] at h
            obtain ⟨hle, line', hl', hp1, hp2, hp3⟩ := ih (idx + 1) _ h
            refine ⟨by omega, line', ?_, hp1, hp2, hp3⟩
            have hj : j - idx = (j - (idx + 1)) + 1 := by omega
            rw [hj]
            simpa using hl'

/-- **C3 (amended).** A corpus line whose entry has an empty source or
target side after splitting at the first `': '` makes parsing fail with
the `unexpected empty source or target value` error carrying the 0-based
index of the offending line — `enumerate(file)` starts at 0, so the
reported number is one less than the 1-based line number — and the corpus
file is left untouched (the error is raised while reading, before any
write). -/
theorem c3_malformed_line :
    (∀ (lines : List String) (j : Nat),
      parseCsv lines = .error (.emptySourceOrTarget j) →
      ∃ line, lines[j]? = some line ∧
        ¬(pyStartsWith line "#" || isBlankStr line) = true ∧
        ¬pyStartsWith line ">" = true ∧ entryEmptySide line) ∧
    (∀ (fold : String → String) (banner : String) (fs : FS) (e : ParseError),
      parseCsv fs.corpus = .error e → convertFS fold banner fs = fs) := by
  constructor
  · intro lines j h
    unfold parseCsv at h
    split at h
    next e heq =>
      obtain rfl : e = .emptySourceOrTarget j := Except.error.inj h
      obtain ⟨_, line, hl, hprops⟩ := parseLines_empty_error lines 0 _ j heq
      exact ⟨line, by simpa using hl, hprops⟩
    next st heq =>
      split at h
      · exact absurd h (by simp)
      · exact absurd (Except.error.inj h) (by simp)
  · intro fold banner fs e h
    unfold convertFS convertRun
    rw [h]

/-- C3 as frozen is false: the reported number for the malformed second
line `foo` is 1, the 0-based index, not the 1-based line number 2. -/
theorem c3_counterexample :
    parseCsv [">French: English", "foo"] = .error (.emptySourceOrTarget 1) ∧
    ¬((1 : Nat) = 2) := by
  decide

theorem c3_malformed_line_witness :
    (parseCsv [">French: English", "foo"] = .error (.emptySourceOrTarget 1) ∧
      [">French: English", "foo"][1]? = some "foo" ∧ entryEmptySide "foo") ∧
    convertFS (fun s => s) "# b" ⟨[">French: English", "foo"], ["log"], []⟩ =
      ⟨[">French: English", "foo"], ["log"], []⟩ := by
  have hp : parseCsv [">French: English", "foo"] = .error (.emptySourceOrTarget 1) := by
    decide
  refine ⟨⟨hp, by decide, by decide⟩, ?_⟩
  exact c3_malformed_line.2 (fun s => s) "# b"
    ⟨[">French: English", "foo"], ["log"], []⟩ (.emptySourceOrTarget 1) hp

/-! ### Claim C9 — short form and suppression flag -/

/-- Modelled from the spec claim wording for comparison: "the raw short
form is the portion before the first `#` (the whole phrase if no `#`),
stripped of whitespace". -/
def specRawShortForm (s : String) : String :=
  String.mk (stripL (((breakAtSub ['#'] s.data).map Prod.fst).getD s.data))

theorem breakAtSub_none_not_mem (c : Char) (cs : List Char)
    (h : breakAtSub [c] cs = none) : c ∉ cs := by
  induction cs with
  | nil => simp
  | cons d rest ih =>
    rw [breakAtSub] at h
    by_cases hcd : [c].isPrefixOf (d :: rest) = true
    · rw [if_pos hcd] at h
      exact absurd h (by simp)
    · rw [if_neg hcd] at h
      have hne : c ≠ d := by
        intro hEq
        subst hEq
        simp [List.isPrefixOf] at hcd
      cases hb : breakAtSub [c] rest with
      | none =>
        intro hmem
        rcases List.mem_cons.mp hmem with hEq | hmem'
        · exact hne hEq
        · exact ih hb hmem'
      | some pp =>
        rw [hb] at h
        exact absurd h (by simp)

theorem breakAtSub_append (c : Char) (x w : List Char) (pre post : List Char)
    (h : breakAtSub [c] x = some (pre, post)) :
    breakAtSub [c] (x ++ w) = some (pre, post ++ w) := by
  induction x generalizing pre post with
  | nil => exact absurd h (by simp [breakAtSub])
  | cons d rest ih =>
    rw [breakAtSub] at h
    by_cases hcd : [c].isPrefixOf (d :: rest) = true
    · rw [if_pos hcd] at h
      simp only [Option.some.injEq, Prod.mk.injEq] at h
      obtain ⟨rfl, rfl⟩ := h
      have hcEq : c = d := by simpa [List.isPrefixOf] using hcd
      have hcd' : [c].isPrefixOf (d :: (rest ++ w)) = true := by
        simp [List.isPrefixOf, hcEq]
      rw [List.cons_append, breakAtSub, if_pos hcd']
      simp
    · rw [if_neg hcd] at h
      cases hb : breakAtSub [c] rest with
      | none => rw [hb] at h; exact absurd h (by simp)
      | some pp =>
        rw [hb] at h
        obtain ⟨p1, p2⟩ := pp
        simp only [Option.some.injEq, Prod.mk.injEq] at h
        obtain ⟨rfl, rfl⟩ := h
        have hcd' : ¬[c].isPrefixOf (d :: (rest ++ w)) = true := by
          intro hc
          apply hcd
          have hcEq : c = d := by simpa [List.isPrefixOf] using hc
          simp [List.isPrefixOf, hcEq]
        rw [List.cons_append, breakAtSub, if_neg hcd', ih p1 p2 hb]

/-- `endsWithL` characterizes exact suffixes. -/
theorem endsWithL_iff (cs suf : List Char) :
    endsWithL cs suf = true ↔ ∃ pre, cs = pre ++ suf := by
  unfold endsWithL
  rw [beq_iff_eq]
  constructor
  · intro h
    refine ⟨cs.take (cs.length - suf.length), ?_⟩
    conv_lhs => rw [← List.take_append_drop (cs.length - suf.length) cs]
    rw [h]
  · rintro ⟨pre, rfl⟩
    have hlen : (pre ++ suf).length - suf.length = pre.length := by
      simp
    rw [hlen]
    exact List.drop_left pre suf

theorem getLast_append_ne_nil {l w : List Char} (h : w ≠ []) :
    (l ++ w).getLast? = w.getLast? := by
  rw [List.getLast?_append]
  cases hw : w.getLast? with
  | none => exact absurd (List.getLast?_eq_none_iff.mp hw) h
  | some a => rfl

theorem mem_of_getLast {l : List Char} {a : Char} (h : l.getLast? = some a) : a ∈ l := by
  rcases List.getLast?_eq_some_iff.mp h with ⟨ys, rfl⟩
  simp

/-- **C9 (amended).** The raw short form is the portion before the first
`#`, stripped of whitespace, when the phrase contains a `#`; when it does
not, the phrase is returned unchanged — not stripped.
`is_ignore_translation_error` is true iff the original phrase ends
exactly with the literal `# ignore translation error`; appending any
trailing whitespace after the literal turns the flag off while the short
form stays unchanged. -/
theorem c9_short_form :
    (∀ s : String, '#' ∈ s.data →
      (get_phrase_short s "#" ignoreLit).1 = specRawShortForm s) ∧
    (∀ s : String, breakAtSub ['#'] s.data = none →
      (get_phrase_short s "#" ignoreLit).1 = s) ∧
    (∀ s : String, (get_phrase_short s "#" ignoreLit).2 = true ↔
      ∃ pre, s.data = pre ++ ignoreLit.data) ∧
    (∀ s w : String, w.data ≠ [] → (∀ ch ∈ w.data, isWs ch = true) →
      (get_phrase_short (s ++ ignoreLit ++ w) "#" ignoreLit).2 = false ∧
      (get_phrase_short (s ++ ignoreLit) "#" ignoreLit).2 = true ∧
      (get_phrase_short (s ++ ignoreLit ++ w) "#" ignoreLit).1 =
        (get_phrase_short (s ++ ignoreLit) "#" ignoreLit).1) := by
  have hmarker : ("#" : String).data = ['#'] := rfl
  refine ⟨?_, ?_, ?_, ?_⟩
  · intro s hmem
    cases hb : breakAtSub ['#'] s.data with
    | none => exact absurd hmem (breakAtSub_none_not_mem '#' s.data hb)
    | some pp =>
      obtain ⟨pre, post⟩ := pp
      simp only [get_phrase_short, specRawShortForm, hmarker, hb, Option.map_some',
        Option.getD_some]
  · intro s hb
    simp only [get_phrase_short, hmarker, hb]
  · intro s
    show endsWithL s.data ignoreLit.data = true ↔ _
    exact endsWithL_iff s.data ignoreLit.data
  · intro s w hw hws
    have hlitne : ignoreLit.data ≠ [] := by decide
    have hlast : ignoreLit.data.getLast? = some 'r' := by decide
    have hdata2 : (s ++ ignoreLit).data = s.data ++ ignoreLit.data :=
      String.data_append s ignoreLit
    have hdata3 : (s ++ ignoreLit ++ w).data = (s.data ++ ignoreLit.data) ++ w.data := by
      rw [String.data_append, String.data_append]
    refine ⟨?_, ?_, ?_⟩
    · cases hEW : endsWithL (s ++ ignoreLit ++ w).data ignoreLit.data with
      | false => exact hEW
      | true =>
        exfalso
        obtain ⟨pre, hpre⟩ := (endsWithL_iff _ _).mp hEW
        have h1 : (s ++ ignoreLit ++ w).data.getLast? = w.data.getLast? := by
          rw [hdata3]
          exact getLast_append_ne_nil hw
        have h2 : (s ++ ignoreLit ++ w).data.getLast? = some 'r' := by
          rw [hpre, getLast_append_ne_nil hlitne, hlast]
        have h3 : w.data.getLast? = some 'r' := by rw [← h1, h2]
        have h4 : ('r' : Char) ∈ w.data := mem_of_getLast h3
        have h5 := hws 'r' h4
        exact absurd h5 (by decide)
    · show endsWithL (s ++ ignoreLit).data ignoreLit.data = true
      exact (endsWithL_iff _ _).mpr ⟨s.data, hdata2⟩
    · have hmem : '#' ∈ (s ++ ignoreLit).data := by
        rw [hdata2]
        exact List.mem_append_right s.data (by decide)
      cases hb : breakAtSub ['#'] (s ++ ignoreLit).data with
      | none => exact absurd hmem (breakAtSub_none_not_mem '#' _ hb)
      | some pp =>
        obtain ⟨pre, post⟩ := pp
        have hb' : breakAtSub ['#'] (s ++ ignoreLit ++ w).data =
            some (pre, post ++ w.data) := by
          rw [hdata3]
          rw [hdata2] at hb
          exact breakAtSub_append '#' _ w.data pre post hb
        simp only [get_phrase_short, hmarker, hb, hb']

/-- C9 as frozen is false: with no `#` the short form is returned
unstripped, while the claim's "stripped of whitespace" form differs. -/
theorem c9_counterexample :
    get_phrase_short " a" "#" ignoreLit = (" a", false) ∧
    specRawShortForm " a" = "a" ∧
    ¬((" a" : String) = "a") := by
  decide

theorem c9_short_form_witness :
    ('#' ∈ ("x # y" : String).data ∧
      (get_phrase_short "x # y" "#" ignoreLit).1 = specRawShortForm "x # y") ∧
    ((" " : String).data ≠ [] ∧ (∀ ch ∈ (" " : String).data, isWs ch = true)) ∧
    (get_phrase_short ("to, at, in " ++ ignoreLit ++ " ") "#" ignoreLit).2 = false ∧
    (get_phrase_short ("to, at, in " ++ ignoreLit) "#" ignoreLit).2 = true ∧
    (get_phrase_short ("to, at, in " ++ ignoreLit ++ " ") "#" ignoreLit).1 =
      (get_phrase_short ("to, at, in " ++ ignoreLit) "#" ignoreLit).1 := by
  have h4 := c9_short_form.2.2.2 "to, at, in " " " (by decide) (by decide)
  exact ⟨⟨by decide, c9_short_form.1 "x # y" (by decide)⟩, ⟨by decide, by decide⟩,
    h4.1, h4.2.1, h4.2.2⟩

end LangLearner
